import Mathlib

/-!
The region pool of `src/core/ngx_palloc.c` and the list of `src/core/ngx_list.c`

A shallow embedding of the pool allocator and of the chunked list that allocates from it.  Addresses are natural numbers and `0` is `NULL`.
A chain linked through `next` pointers is a Lean list in chain order, and a pointer into such a
chain (`pool->current`) is an index into that list.  The contents of the bytes handed out are not
part of the model; the bookkeeping of the pool is.  The lists stand for the links in memory as
long as the memory the pool hands out is fresh; the cleanup list is also modelled in memory
(`pool_mem`), where an entry can be handed out again after `ngx_reset_pool`.

The platform allocator (`ngx_alloc`, `ngx_memalign`, `ngx_free`) is outside the repository: what
it answers to a call is an argument of the function that makes the call, and the calls of
`ngx_free` and of cleanup handlers are reported as a list of events.
-/

namespace Ngx

/-- Modelled from the spec: the constants that `ngx_palloc.c` takes from headers that are not
among the sources (`ngx_palloc.h`, `ngx_config.h`): the sizes of the structures,
`NGX_ALIGNMENT` and `NGX_MAX_ALLOC_FROM_POOL`. -/
structure Platform where
  sizeof_ngx_pool_t : Nat
  sizeof_ngx_pool_data_t : Nat
  sizeof_ngx_pool_large_t : Nat
  sizeof_ngx_pool_cleanup_t : Nat
  NGX_ALIGNMENT : Nat
  NGX_MAX_ALLOC_FROM_POOL : Nat
deriving DecidableEq

/-- The values of the constants on an LP64 Unix build: `ngx_pool_data_t` is four words,
`ngx_pool_t` is ten, `NGX_ALIGNMENT` is `sizeof(unsigned long)` and
`NGX_MAX_ALLOC_FROM_POOL` is `ngx_pagesize - 1`. -/
def lp64 : Platform :=
  { sizeof_ngx_pool_t := 80
    sizeof_ngx_pool_data_t := 32
    sizeof_ngx_pool_large_t := 16
    sizeof_ngx_pool_cleanup_t := 24
    NGX_ALIGNMENT := 8
    NGX_MAX_ALLOC_FROM_POOL := 4095 }

/-- The return codes `NGX_OK` and `NGX_DECLINED` of `ngx_core.h`. -/
def NGX_OK : Int := 0

/-- The return code for "not found". -/
def NGX_DECLINED : Int := -5

/-- The C expression `(size_t) (a - b)`: the difference is taken in the integers and reduced
modulo `2 ^ 64`, so a negative difference becomes a huge unsigned value. -/
def size_t_sub (a b : Nat) : Nat := (((a : Int) - (b : Int)) % (2 ^ 64 : Int)).toNat

/-- Modelled from the spec: the macro `ngx_align_ptr(p, a)` of the absent `ngx_config.h`, which
rounds the address `p` up to the next multiple of the power of two `a`. -/
def ngx_align_ptr (p a : Nat) : Nat := (p + (a - 1)) / a * a

/-- The header `ngx_pool_data_t` of one region.  `addr` is the address of the block that starts
with this header (`(u_char *) p`); `next` is the position in the chain. -/
structure ngx_pool_data_t where
  addr : Nat
  last : Nat
  end_ : Nat
  failed : Nat
deriving DecidableEq

/-- One slot `ngx_pool_large_t` of the large list; `addr` is where the slot itself lives. -/
structure ngx_pool_large_t where
  addr : Nat
  alloc : Nat
deriving DecidableEq

/-- One entry `ngx_pool_cleanup_t` of the cleanup list; `handler` is a function pointer. -/
structure ngx_pool_cleanup_t where
  addr : Nat
  handler : Nat
  data : Nat
deriving DecidableEq

/-- The pool `ngx_pool_t`: `d` is the chain of regions whose head is the pool itself, `current`
indexes that chain, `large` and `cleanup` are the two lists in list order.  The fields `chain`
and `log` play no part in the functions below and are left out.  In the code `max`, `current`
and the heads of the two lists are bytes of the pool header and the links of the lists are
bytes of memory that the pool handed out; the record stands for them as long as no memory
that the pool hands out afterwards shares a byte with them.  The pool `pool_100_high_overrun`
is a state in which the next slot is handed out inside the pool header, and `pool_mem` keeps
the cleanup list in memory. -/
structure ngx_pool_t where
  d : List ngx_pool_data_t
  max : Nat
  current : Nat
  large : List ngx_pool_large_t
  cleanup : List ngx_pool_cleanup_t
deriving DecidableEq

/-- What a pool function does to the outside: a call of `ngx_free`, or of a cleanup handler. -/
inductive Event where
  | free (p : Nat)
  | call (handler data : Nat)
deriving DecidableEq

/-- The function `ngx_create_pool(size, log)`; `p` is the answer of `ngx_memalign`. -/
def ngx_create_pool (cfg : Platform) (size p : Nat) : Option ngx_pool_t :=
  if p = 0 then none
  else
    let size1 := size_t_sub size cfg.sizeof_ngx_pool_t
    some
      { d := [{ addr := p, last := p + cfg.sizeof_ngx_pool_t, end_ := p + size, failed := 0 }]
        max := if size1 < cfg.NGX_MAX_ALLOC_FROM_POOL then size1 else cfg.NGX_MAX_ALLOC_FROM_POOL
        current := 0
        large := []
        cleanup := [] }

/-- The `for` loop of `ngx_palloc_block` over the regions from `pool->current` on: `i` is the
index of the first region of the list and `cur` the value of `pool->current` so far.  A region
that has a successor gets `failed++`, and `current` moves to that successor when the value
before the increment is above 4. -/
def palloc_block_loop : List ngx_pool_data_t → Nat → Nat → List ngx_pool_data_t × Nat
  | [], _, cur => ([], cur)
  | [p], _, cur => ([p], cur)
  | p :: q :: rest, i, cur =>
    let r := palloc_block_loop (q :: rest) (i + 1) (if p.failed > 4 then i + 1 else cur)
    ({ p with failed := p.failed + 1 } :: r.1, r.2)

/-- The function `ngx_palloc_block(pool, size)`; `m` is the answer of `ngx_memalign`. -/
def ngx_palloc_block (cfg : Platform) (pool : ngx_pool_t) (size m : Nat) : Nat × ngx_pool_t :=
  match pool.d with
  | [] => (0, pool)
  | hd :: _ =>
    let psize := size_t_sub hd.end_ hd.addr
    if m = 0 then (0, pool)
    else
      let m1 := ngx_align_ptr (m + cfg.sizeof_ngx_pool_data_t) cfg.NGX_ALIGNMENT
      let new : ngx_pool_data_t := { addr := m, last := m1 + size, end_ := m + psize, failed := 0 }
      let r := palloc_block_loop (pool.d.drop pool.current) pool.current pool.current
      (m1, { pool with d := pool.d.take pool.current ++ r.1 ++ [new], current := r.2 })

/-- The `do ... while (p)` loop of `ngx_palloc_small` over the regions from `pool->current` on:
the address served and the regions after the cursor moved, or `none` when the loop runs off the
chain. -/
def palloc_small_loop (cfg : Platform) (size align : Nat) :
    List ngx_pool_data_t → Option (Nat × List ngx_pool_data_t)
  | [] => none
  | p :: rest =>
    let m := if align ≠ 0 then ngx_align_ptr p.last cfg.NGX_ALIGNMENT else p.last
    if size_t_sub p.end_ m ≥ size then some (m, { p with last := m + size } :: rest)
    else (palloc_small_loop cfg size align rest).map (fun r => (r.1, p :: r.2))

/-- The function `ngx_palloc_small(pool, size, align)`; `m` is what `ngx_memalign` answers if
the call reaches `ngx_palloc_block`. -/
def ngx_palloc_small (cfg : Platform) (pool : ngx_pool_t) (size align m : Nat) :
    Nat × ngx_pool_t :=
  match palloc_small_loop cfg size align (pool.d.drop pool.current) with
  | some r => (r.1, { pool with d := pool.d.take pool.current ++ r.2 })
  | none => ngx_palloc_block cfg pool size m

/-- The `for` loop of `ngx_palloc_large` over the large list with its counter `n`: the list
after `p` was stored in a vacant slot, or `none` when the loop ends without storing. -/
def palloc_large_loop (p : Nat) : List ngx_pool_large_t → Nat → Option (List ngx_pool_large_t)
  | [], _ => none
  | large :: rest, n =>
    if large.alloc = 0 then some ({ large with alloc := p } :: rest)
    else if n > 3 then none
    else (palloc_large_loop p rest (n + 1)).map (fun r => large :: r)

/-- The function `ngx_palloc_large(pool, size)`; `p` is the answer of `ngx_alloc` and `m` what
`ngx_memalign` answers if the slot needs a new region. -/
def ngx_palloc_large (cfg : Platform) (pool : ngx_pool_t) (size p m : Nat) :
    Nat × ngx_pool_t × List Event :=
  let _ := size
  if p = 0 then (0, pool, [])
  else
    match palloc_large_loop p pool.large 0 with
    | some ls => (p, { pool with large := ls }, [])
    | none =>
      let r := ngx_palloc_small cfg pool cfg.sizeof_ngx_pool_large_t 1 m
      if r.1 = 0 then (0, r.2, [Event.free p])
      else (p, { r.2 with large := { addr := r.1, alloc := p } :: r.2.large }, [])

/-- The function `ngx_palloc(pool, size)`, built without `NGX_DEBUG_PALLOC`. -/
def ngx_palloc (cfg : Platform) (pool : ngx_pool_t) (size p m : Nat) :
    Nat × ngx_pool_t × List Event :=
  if size ≤ pool.max then
    let r := ngx_palloc_small cfg pool size 1 m
    (r.1, r.2, [])
  else ngx_palloc_large cfg pool size p m

/-- The function `ngx_pnalloc(pool, size)`, built without `NGX_DEBUG_PALLOC`. -/
def ngx_pnalloc (cfg : Platform) (pool : ngx_pool_t) (size p m : Nat) :
    Nat × ngx_pool_t × List Event :=
  if size ≤ pool.max then
    let r := ngx_palloc_small cfg pool size 0 m
    (r.1, r.2, [])
  else ngx_palloc_large cfg pool size p m

/-- The `for` loop of `ngx_pfree`: the large list after the first slot that holds `p` was
vacated, or `none` when no slot holds `p`. -/
def pfree_loop (p : Nat) : List ngx_pool_large_t → Option (List ngx_pool_large_t)
  | [] => none
  | l :: rest =>
    if p = l.alloc then some ({ l with alloc := 0 } :: rest)
    else (pfree_loop p rest).map (fun r => l :: r)

/-- The function `ngx_pfree(pool, p)`. -/
def ngx_pfree (pool : ngx_pool_t) (p : Nat) : Int × ngx_pool_t × List Event :=
  match pfree_loop p pool.large with
  | some ls => (NGX_OK, { pool with large := ls }, [Event.free p])
  | none => (NGX_DECLINED, pool, [])

/-- The first loop of `ngx_reset_pool`: `ngx_free` on every slot that is not vacant. -/
def reset_free_large : List ngx_pool_large_t → List Event
  | [] => []
  | l :: rest => if l.alloc ≠ 0 then Event.free l.alloc :: reset_free_large rest
    else reset_free_large rest

/-- The function `ngx_reset_pool(pool)`. -/
def ngx_reset_pool (cfg : Platform) (pool : ngx_pool_t) : ngx_pool_t × List Event :=
  ({ pool with
      d := pool.d.map (fun p => { p with last := p.addr + cfg.sizeof_ngx_pool_t, failed := 0 })
      current := 0
      large := [] },
   reset_free_large pool.large)

/-- One call of the small-allocation interface: `ngx_palloc` when `align` is set and
`ngx_pnalloc` otherwise, with the answers the platform allocator would give. -/
structure small_call where
  size : Nat
  align : Bool
  alloc_ret : Nat
  memalign_ret : Nat
deriving DecidableEq

/-- A sequence of calls on one pool: the addresses returned, in call order, and the pool. -/
def run_calls (cfg : Platform) : ngx_pool_t → List small_call → List Nat × ngx_pool_t
  | pool, [] => ([], pool)
  | pool, c :: cs =>
    let r := if c.align then ngx_palloc cfg pool c.size c.alloc_ret c.memalign_ret
      else ngx_pnalloc cfg pool c.size c.alloc_ret c.memalign_ret
    let rs := run_calls cfg r.2.1 cs
    (r.1 :: rs.1, rs.2)

/-- Two byte ranges `[p, p + n)` and `[q, q + k)` share a byte. -/
def ranges_overlap (p n q k : Nat) : Prop := p < q + k ∧ q < p + n

instance (p n q k : Nat) : Decidable (ranges_overlap p n q k) := by
  unfold ranges_overlap; infer_instance

/-- The base, the cursor and the limit of a region. -/
def region_geom (r : ngx_pool_data_t) : Nat × Nat × Nat := (r.addr, r.last, r.end_)

/-- The base and the limit of a region. -/
def region_frame (r : ngx_pool_data_t) : Nat × Nat := (r.addr, r.end_)

/-- The cursor a request looks at in a region: rounded up to `NGX_ALIGNMENT` in the aligned
variant, the cursor itself in the unaligned one. -/
def request_cursor (cfg : Platform) (r : ngx_pool_data_t) (align : Nat) : Nat :=
  if align ≠ 0 then ngx_align_ptr r.last cfg.NGX_ALIGNMENT else r.last

/-- Following the claim's words, not the code: the region has remaining space, its limit minus
the possibly aligned cursor, that covers `size`. -/
def spec_region_covers (cfg : Platform) (r : ngx_pool_data_t) (size align : Nat) : Prop :=
  request_cursor cfg r align ≤ r.end_ ∧ size ≤ r.end_ - request_cursor cfg r align

instance (cfg : Platform) (r : ngx_pool_data_t) (size align : Nat) :
    Decidable (spec_region_covers cfg r size align) := by
  unfold spec_region_covers; infer_instance

/-- The pool that `ngx_create_pool(100)` builds on LP64 in a block at address 4096. -/
def pool_100 : ngx_pool_t :=
  { d := [{ addr := 4096, last := 4176, end_ := 4196, failed := 0 }]
    max := 20, current := 0, large := [], cleanup := [] }

/-- The pool `pool_100` after `ngx_pnalloc(17)` and `ngx_pnalloc(4)`, the second of which grew
the chain by a block that the platform allocator placed at address 4208. -/
def pool_100_grown : ngx_pool_t :=
  { d := [{ addr := 4096, last := 4193, end_ := 4196, failed := 0 },
          { addr := 4208, last := 4244, end_ := 4308, failed := 0 }]
    max := 20, current := 0, large := [], cleanup := [] }

/-- The pool that `ngx_create_pool(128)` builds on LP64 in a block at address 4096. -/
def pool_128 : ngx_pool_t :=
  { d := [{ addr := 4096, last := 4176, end_ := 4224, failed := 0 }]
    max := 48, current := 0, large := [], cleanup := [] }

/-- A pool with two large slots, both occupied. -/
def pool_two_large : ngx_pool_t :=
  { d := [{ addr := 4096, last := 4208, end_ := 5120, failed := 0 }]
    max := 944, current := 0
    large := [{ addr := 4192, alloc := 20000 }, { addr := 4176, alloc := 10000 }]
    cleanup := [] }

/-- The pool made by `ngx_create_pool(1024)` at 4096 on LP64. -/
def pool_1024 : ngx_pool_t :=
  { d := [{ addr := 4096, last := 4176, end_ := 5120, failed := 0 }]
    max := 944, current := 0, large := [], cleanup := [] }

/-- The pool `pool_128` after `ngx_palloc(48)`, which fills the first region. -/
def pool_128_full : ngx_pool_t :=
  { d := [{ addr := 4096, last := 4224, end_ := 4224, failed := 0 }]
    max := 48, current := 0, large := [], cleanup := [] }

/-- The pool `pool_128` after `ngx_palloc(48)`, which fills the first region, and
`ngx_palloc(8)`, which grew the chain by a block at address 8192. -/
def pool_128_grown : ngx_pool_t :=
  { d := [{ addr := 4096, last := 4224, end_ := 4224, failed := 0 },
          { addr := 8192, last := 8232, end_ := 8320, failed := 0 }]
    max := 48, current := 0, large := [], cleanup := [] }

/-- The function `ngx_pmemalign(pool, size, alignment)`; `p` is the answer of `ngx_memalign`
for the data and `m` what it answers if the slot needs a new region. -/
def ngx_pmemalign (cfg : Platform) (pool : ngx_pool_t) (size alignment p m : Nat) :
    Nat × ngx_pool_t × List Event :=
  let _ := size
  let _ := alignment
  if p = 0 then (0, pool, [])
  else
    let r := ngx_palloc_small cfg pool cfg.sizeof_ngx_pool_large_t 1 m
    if r.1 = 0 then (0, r.2, [Event.free p])
    else (p, { r.2 with large := { addr := r.1, alloc := p } :: r.2.large }, [])

/-- The function `ngx_pcalloc(pool, size)`: `ngx_palloc`, after which the bytes are zeroed,
which the model of the bookkeeping does not see. -/
def ngx_pcalloc (cfg : Platform) (pool : ngx_pool_t) (size p m : Nat) :
    Nat × ngx_pool_t × List Event :=
  ngx_palloc cfg pool size p m

/-- The function `ngx_pool_cleanup_add(p, size)`; `pc` and `mc` are the answers of the
platform allocator for the `ngx_palloc` of the entry, `pd` and `md` those for the `ngx_palloc`
of the data.  The new entry is a record put in front of the list `cleanup`, which stands for
the stores at the returned address as long as that address shares no byte with an entry of
the list; `ngx_pool_cleanup_add_mem` has the stores themselves. -/
def ngx_pool_cleanup_add (cfg : Platform) (pool : ngx_pool_t) (size pc mc pd md : Nat) :
    Nat × ngx_pool_t × List Event :=
  let c := ngx_palloc cfg pool cfg.sizeof_ngx_pool_cleanup_t pc mc
  if c.1 = 0 then (0, c.2.1, c.2.2)
  else if size ≠ 0 then
    let data := ngx_palloc cfg c.2.1 size pd md
    if data.1 = 0 then (0, data.2.1, c.2.2 ++ data.2.2)
    else
      (c.1,
       { data.2.1 with
          cleanup := { addr := c.1, handler := 0, data := data.1 } :: data.2.1.cleanup },
       c.2.2 ++ data.2.2)
  else
    (c.1,
     { c.2.1 with cleanup := { addr := c.1, handler := 0, data := 0 } :: c.2.1.cleanup },
     c.2.2)

/-- The first loop of `ngx_destroy_pool`: the handler of every cleanup entry that has one is
called with the entry's data, from the head of the list to its tail. -/
def destroy_run_cleanup : List ngx_pool_cleanup_t → List Event
  | [] => []
  | c :: rest =>
    if c.handler ≠ 0 then Event.call c.handler c.data :: destroy_run_cleanup rest
    else destroy_run_cleanup rest

/-- The function `ngx_destroy_pool(pool)`, built without `NGX_DEBUG`: the cleanup handlers,
then `ngx_free` on every large slot that is not vacant (the loop of `ngx_reset_pool`), then
`ngx_free` on every region from the head of the chain on. -/
def ngx_destroy_pool (pool : ngx_pool_t) : List Event :=
  destroy_run_cleanup pool.cleanup ++ reset_free_large pool.large
    ++ pool.d.map (fun p => Event.free p.addr)

/-- The loop of `ngx_pool_run_cleanup_file`.  `h_file` is the address of the function
`ngx_pool_cleanup_file` and `fd_at a` is the descriptor `cf->fd` read from the
`ngx_pool_cleanup_file_t` at address `a`.  The result is the list after the handler of the
first matching entry was called and cleared, or `none` when the loop ends without a match. -/
def run_cleanup_file_loop (h_file : Nat) (fd_at : Nat → Int) (fd : Int) :
    List ngx_pool_cleanup_t → Option (List ngx_pool_cleanup_t × List Event)
  | [] => none
  | c :: rest =>
    if c.handler = h_file then
      if fd_at c.data = fd then
        some ({ c with handler := 0 } :: rest, [Event.call c.handler c.data])
      else (run_cleanup_file_loop h_file fd_at fd rest).map (fun r => (c :: r.1, r.2))
    else (run_cleanup_file_loop h_file fd_at fd rest).map (fun r => (c :: r.1, r.2))

/-- The function `ngx_pool_run_cleanup_file(p, fd)`. -/
def ngx_pool_run_cleanup_file (h_file : Nat) (fd_at : Nat → Int) (pool : ngx_pool_t)
    (fd : Int) : ngx_pool_t × List Event :=
  match run_cleanup_file_loop h_file fd_at fd pool.cleanup with
  | some r => ({ pool with cleanup := r.1 }, r.2)
  | none => (pool, [])

/-- One registration: the data size passed to `ngx_pool_cleanup_add`, the handler the caller
assigns afterwards (0 for none) and the answers of the platform allocator. -/
structure cleanup_reg where
  size : Nat
  handler : Nat
  pc : Nat
  mc : Nat
  pd : Nat
  md : Nat
deriving DecidableEq

/-- The calls of cleanup handlers among the events. -/
def handler_calls (es : List Event) : List Event :=
  es.filter (fun e => match e with
    | Event.call _ _ => true
    | Event.free _ => false)

/-- One operation on a pool, with the answers of the platform allocator. -/
inductive pool_op where
  | palloc (size p m : Nat)
  | pnalloc (size p m : Nat)
  | pcalloc (size p m : Nat)
  | pmemalign (size alignment p m : Nat)
  | pfree (p : Nat)
  | cleanup_add (size pc mc pd md : Nat)
  | reset
deriving DecidableEq

/-- The pool after one operation. -/
def apply_op (cfg : Platform) (pool : ngx_pool_t) : pool_op → ngx_pool_t
  | pool_op.palloc size p m => (ngx_palloc cfg pool size p m).2.1
  | pool_op.pnalloc size p m => (ngx_pnalloc cfg pool size p m).2.1
  | pool_op.pcalloc size p m => (ngx_pcalloc cfg pool size p m).2.1
  | pool_op.pmemalign size alignment p m => (ngx_pmemalign cfg pool size alignment p m).2.1
  | pool_op.pfree p => (ngx_pfree pool p).2.1
  | pool_op.cleanup_add size pc mc pd md => (ngx_pool_cleanup_add cfg pool size pc mc pd md).2.1
  | pool_op.reset => (ngx_reset_pool cfg pool).1

/-- The pool after a sequence of operations. -/
def run_ops (cfg : Platform) : ngx_pool_t → List pool_op → ngx_pool_t
  | pool, [] => pool
  | pool, op :: ops => run_ops cfg (apply_op cfg pool op) ops

/-- Following the claim's words, not the code: the ceiling of small allocations is the
smaller of `total_size - sizeof(ngx_pool_t)`, taken in the integers, and
`NGX_MAX_ALLOC_FROM_POOL`. -/
def spec_small_ceiling (cfg : Platform) (total_size : Nat) : Int :=
  min ((total_size : Int) - (cfg.sizeof_ngx_pool_t : Int)) (cfg.NGX_MAX_ALLOC_FROM_POOL : Int)

/-- The region with one more failure counted: `p->d.failed++`. -/
def count_failure (r : ngx_pool_data_t) : ngx_pool_data_t := { r with failed := r.failed + 1 }

/-- What every operation keeps from a pool `a` to the pool `b` after it: the ceiling `max`, and
that `current` indexes a region of the chain. -/
def pool_step_ok (a b : ngx_pool_t) : Prop :=
  b.max = a.max ∧ (a.current < a.d.length → b.current < b.d.length)

/-- A pool with three regions, of which the first has failed 5 times, the second and the
third never, and whose `current` is the first. -/
def pool_tired : ngx_pool_t :=
  { d := [{ addr := 4096, last := 4224, end_ := 4224, failed := 5 },
          { addr := 8192, last := 8320, end_ := 8320, failed := 0 },
          { addr := 12288, last := 12416, end_ := 12416, failed := 0 }]
    max := 48, current := 0, large := [], cleanup := [] }

/-- Three registrations on LP64, of X, Y and Z, with data of 0, 8 and 16 bytes, to which the
caller assigns the handlers 101, 102 and 103. -/
def regs_xyz : List cleanup_reg :=
  [{ size := 0, handler := 101, pc := 0, mc := 0, pd := 0, md := 0 },
   { size := 8, handler := 102, pc := 0, mc := 0, pd := 0, md := 0 },
   { size := 16, handler := 103, pc := 0, mc := 0, pd := 0, md := 0 }]

/-- A pool with three cleanup entries: two with the handler 500, whose data are at 4224 and
4256, and one with the handler 102. -/
def pool_files : ngx_pool_t :=
  { d := [{ addr := 4096, last := 4300, end_ := 5120, failed := 0 }]
    max := 944, current := 0, large := []
    cleanup := [{ addr := 4232, handler := 500, data := 4256 },
                { addr := 4200, handler := 102, data := 4224 },
                { addr := 4176, handler := 500, data := 4224 }] }

/-- The descriptors stored at the data of `pool_files`: 9 at 4256 and 7 at 4224. -/
def fds_of_pool_files (a : Nat) : Int := if a = 4256 then 9 else if a = 4224 then 7 else 0

/-- The pool that `ngx_create_pool(100)` builds on LP64 in a block at address 8192. -/
def pool_100_high : ngx_pool_t :=
  { d := [{ addr := 8192, last := 8272, end_ := 8292, failed := 0 }]
    max := 20, current := 0, large := [], cleanup := [] }

/-- The pool `pool_100_high` after eight small allocations, the second of which grew the
chain by a block that the platform allocator placed at 8080, below the pool: the cursor of
that second region has passed its limit 8180 and stands at 8224, inside the first block. -/
def pool_100_high_overrun : ngx_pool_t :=
  { d := [{ addr := 8192, last := 8288, end_ := 8292, failed := 0 },
          { addr := 8080, last := 8224, end_ := 8180, failed := 0 }]
    max := 20, current := 0, large := [], cleanup := [] }

/-- No region of the pool has its cursor past its limit.  The test for space in
`ngx_palloc_small` passes a region whose aligned cursor is above the limit, and the cursor is
then left above the limit, so this holds of a pool as long as that has not happened. -/
def cursors_in_limits (pool : ngx_pool_t) : Bool :=
  pool.d.all (fun r => decide (r.last ≤ r.end_))

/-- The pool has no cursor past its limit before the run of operations, between any two of
them and after the last: no allocation of the run was served from beyond a region. -/
def run_in_limits (cfg : Platform) : ngx_pool_t → List pool_op → Bool
  | pool, [] => cursors_in_limits pool
  | pool, op :: ops => cursors_in_limits pool && run_in_limits cfg (apply_op cfg pool op) ops

/-- The pool that `ngx_create_pool(400)` builds on LP64 in a block at address 4096. -/
def pool_400 : ngx_pool_t :=
  { d := [{ addr := 4096, last := 4176, end_ := 4496, failed := 0 }]
    max := 320, current := 0, large := [], cleanup := [] }

/-- The calls `ngx_palloc(1)` numbered `start`, ..., `start + len - 1`.  Should the call number
`i` need a new block, the platform allocator places it at `8192 + 512 * i`. -/
def byte_run (start len : Nat) : List small_call :=
  (List.range' start len).map
    (fun i => { size := 1, align := true, alloc_ret := 0, memalign_ret := 8192 + 512 * i })

/-- The calls `ngx_palloc(1)`, 317 times, and then `ngx_pnalloc(0)`. -/
def byte_calls : List small_call :=
  byte_run 0 317 ++ [{ size := 0, align := false, alloc_ret := 0, memalign_ret := 0 }]

/-- Following the words of the claim C8, not the code: a reset that rewinds the cursor of
every region to where it started, past the pool header in the first region and at the
aligned address past the region header in a region added by growth. -/
def reset_as_claimed (cfg : Platform) (pool : ngx_pool_t) : ngx_pool_t :=
  { pool with
    d := match pool.d with
      | [] => []
      | hd :: tl =>
        { hd with last := hd.addr + cfg.sizeof_ngx_pool_t, failed := 0 }
          :: tl.map (fun r =>
            { r with
              last := ngx_align_ptr (r.addr + cfg.sizeof_ngx_pool_data_t) cfg.NGX_ALIGNMENT
              failed := 0 })
    current := 0
    large := [] }


/-- The pool `pool_400` after the first 80 calls of `byte_calls`. -/
def byte_pool_a1 : ngx_pool_t :=
  { d := [⟨4096, 4489, 4496, 0⟩,
      ⟨28672, 29017, 29072, 0⟩]
    max := 320, current := 0, large := [], cleanup := [] }

/-- The pool `pool_400` after the first 160 calls of `byte_calls`. -/
def byte_pool_a2 : ngx_pool_t :=
  { d := [⟨4096, 4489, 4496, 2⟩,
      ⟨28672, 29065, 29072, 1⟩,
      ⟨52224, 52617, 52624, 0⟩,
      ⟨75776, 76025, 76176, 0⟩]
    max := 320, current := 0, large := [], cleanup := [] }

/-- The pool `pool_400` after the first 240 calls of `byte_calls`. -/
def byte_pool_a3 : ngx_pool_t :=
  { d := [⟨4096, 4489, 4496, 4⟩,
      ⟨28672, 29065, 29072, 3⟩,
      ⟨52224, 52617, 52624, 2⟩,
      ⟨75776, 76169, 76176, 1⟩,
      ⟨99328, 99721, 99728, 0⟩,
      ⟨122880, 123033, 123280, 0⟩]
    max := 320, current := 0, large := [], cleanup := [] }

/-- The pool `pool_400` after the 317 calls `ngx_palloc(1)` of `byte_calls`: seven regions were
added and `current` has moved to the second region. -/
def byte_pool_a4 : ngx_pool_t :=
  { d := [⟨4096, 4489, 4496, 6⟩,
      ⟨28672, 29065, 29072, 5⟩,
      ⟨52224, 52617, 52624, 4⟩,
      ⟨75776, 76169, 76176, 3⟩,
      ⟨99328, 99721, 99728, 2⟩,
      ⟨122880, 123273, 123280, 1⟩,
      ⟨146432, 146825, 146832, 0⟩,
      ⟨169984, 170017, 170384, 0⟩]
    max := 320, current := 1, large := [], cleanup := [] }

/-- The pool `byte_pool_a4` after `ngx_reset_pool`. -/
def byte_pool_b0 : ngx_pool_t :=
  { d := [⟨4096, 4176, 4496, 0⟩,
      ⟨28672, 28752, 29072, 0⟩,
      ⟨52224, 52304, 52624, 0⟩,
      ⟨75776, 75856, 76176, 0⟩,
      ⟨99328, 99408, 99728, 0⟩,
      ⟨122880, 122960, 123280, 0⟩,
      ⟨146432, 146512, 146832, 0⟩,
      ⟨169984, 170064, 170384, 0⟩]
    max := 320, current := 0, large := [], cleanup := [] }

/-- The pool `byte_pool_b0` after the first 80 calls of `byte_calls`. -/
def byte_pool_b1 : ngx_pool_t :=
  { d := [⟨4096, 4489, 4496, 0⟩,
      ⟨28672, 29065, 29072, 0⟩,
      ⟨52224, 52304, 52624, 0⟩,
      ⟨75776, 75856, 76176, 0⟩,
      ⟨99328, 99408, 99728, 0⟩,
      ⟨122880, 122960, 123280, 0⟩,
      ⟨146432, 146512, 146832, 0⟩,
      ⟨169984, 170064, 170384, 0⟩]
    max := 320, current := 0, large := [], cleanup := [] }

/-- The pool `byte_pool_b0` after the first 160 calls of `byte_calls`. -/
def byte_pool_b2 : ngx_pool_t :=
  { d := [⟨4096, 4489, 4496, 0⟩,
      ⟨28672, 29065, 29072, 0⟩,
      ⟨52224, 52617, 52624, 0⟩,
      ⟨75776, 76169, 76176, 0⟩,
      ⟨99328, 99408, 99728, 0⟩,
      ⟨122880, 122960, 123280, 0⟩,
      ⟨146432, 146512, 146832, 0⟩,
      ⟨169984, 170064, 170384, 0⟩]
    max := 320, current := 0, large := [], cleanup := [] }

/-- The pool `byte_pool_b0` after the first 240 calls of `byte_calls`. -/
def byte_pool_b3 : ngx_pool_t :=
  { d := [⟨4096, 4489, 4496, 0⟩,
      ⟨28672, 29065, 29072, 0⟩,
      ⟨52224, 52617, 52624, 0⟩,
      ⟨75776, 76169, 76176, 0⟩,
      ⟨99328, 99721, 99728, 0⟩,
      ⟨122880, 123273, 123280, 0⟩,
      ⟨146432, 146512, 146832, 0⟩,
      ⟨169984, 170064, 170384, 0⟩]
    max := 320, current := 0, large := [], cleanup := [] }

/-- The pool `byte_pool_b0` after the 317 calls `ngx_palloc(1)` of `byte_calls`. -/
def byte_pool_b4 : ngx_pool_t :=
  { d := [⟨4096, 4489, 4496, 0⟩,
      ⟨28672, 29065, 29072, 0⟩,
      ⟨52224, 52617, 52624, 0⟩,
      ⟨75776, 76169, 76176, 0⟩,
      ⟨99328, 99721, 99728, 0⟩,
      ⟨122880, 123273, 123280, 0⟩,
      ⟨146432, 146825, 146832, 0⟩,
      ⟨169984, 170353, 170384, 0⟩]
    max := 320, current := 0, large := [], cleanup := [] }

/-- The pool `byte_pool_a4` after `reset_as_claimed`. -/
def byte_pool_c0 : ngx_pool_t :=
  { d := [⟨4096, 4176, 4496, 0⟩,
      ⟨28672, 28704, 29072, 0⟩,
      ⟨52224, 52256, 52624, 0⟩,
      ⟨75776, 75808, 76176, 0⟩,
      ⟨99328, 99360, 99728, 0⟩,
      ⟨122880, 122912, 123280, 0⟩,
      ⟨146432, 146464, 146832, 0⟩,
      ⟨169984, 170016, 170384, 0⟩]
    max := 320, current := 0, large := [], cleanup := [] }

/-- The pool `byte_pool_c0` after the first 80 calls of `byte_calls`. -/
def byte_pool_c1 : ngx_pool_t :=
  { d := [⟨4096, 4489, 4496, 0⟩,
      ⟨28672, 29017, 29072, 0⟩,
      ⟨52224, 52256, 52624, 0⟩,
      ⟨75776, 75808, 76176, 0⟩,
      ⟨99328, 99360, 99728, 0⟩,
      ⟨122880, 122912, 123280, 0⟩,
      ⟨146432, 146464, 146832, 0⟩,
      ⟨169984, 170016, 170384, 0⟩]
    max := 320, current := 0, large := [], cleanup := [] }

/-- The pool `byte_pool_c0` after the first 160 calls of `byte_calls`. -/
def byte_pool_c2 : ngx_pool_t :=
  { d := [⟨4096, 4489, 4496, 0⟩,
      ⟨28672, 29065, 29072, 0⟩,
      ⟨52224, 52617, 52624, 0⟩,
      ⟨75776, 76025, 76176, 0⟩,
      ⟨99328, 99360, 99728, 0⟩,
      ⟨122880, 122912, 123280, 0⟩,
      ⟨146432, 146464, 146832, 0⟩,
      ⟨169984, 170016, 170384, 0⟩]
    max := 320, current := 0, large := [], cleanup := [] }

/-- The pool `byte_pool_c0` after the first 240 calls of `byte_calls`. -/
def byte_pool_c3 : ngx_pool_t :=
  { d := [⟨4096, 4489, 4496, 0⟩,
      ⟨28672, 29065, 29072, 0⟩,
      ⟨52224, 52617, 52624, 0⟩,
      ⟨75776, 76169, 76176, 0⟩,
      ⟨99328, 99721, 99728, 0⟩,
      ⟨122880, 123033, 123280, 0⟩,
      ⟨146432, 146464, 146832, 0⟩,
      ⟨169984, 170016, 170384, 0⟩]
    max := 320, current := 0, large := [], cleanup := [] }

/-- The pool `byte_pool_c0` after the 317 calls `ngx_palloc(1)` of `byte_calls`. -/
def byte_pool_c4 : ngx_pool_t :=
  { d := [⟨4096, 4489, 4496, 0⟩,
      ⟨28672, 29065, 29072, 0⟩,
      ⟨52224, 52617, 52624, 0⟩,
      ⟨75776, 76169, 76176, 0⟩,
      ⟨99328, 99721, 99728, 0⟩,
      ⟨122880, 123273, 123280, 0⟩,
      ⟨146432, 146825, 146832, 0⟩,
      ⟨169984, 170017, 170384, 0⟩]
    max := 320, current := 0, large := [], cleanup := [] }

/-- The three fields of a `ngx_pool_cleanup_t` as memory holds them at some address; `none`
is a field whose content is not known. -/
structure cleanup_cell where
  handler : Option Nat
  data : Option Nat
  next : Option Nat
deriving DecidableEq

/-- A pool with the memory of its cleanup entries.  `pool` is the bookkeeping of the regions
and of the large list, of which the field `cleanup` is not used here; `head` is the pointer
`p->cleanup`; `cell a` is what memory holds at the address `a`, read as a
`ngx_pool_cleanup_t`.  The record `pool` is exact as long as no entry shares a byte with a
region header or with a large slot. -/
structure pool_mem where
  pool : ngx_pool_t
  head : Nat
  cell : Nat → cleanup_cell

/-- The byte range, a start and a length, of the pool header `ngx_pool_t`, which is at the
start of the first region. -/
def pool_header_range (cfg : Platform) (pool : ngx_pool_t) : List (Nat × Nat) :=
  match pool.d with
  | [] => []
  | hd :: _ => [(hd.addr, cfg.sizeof_ngx_pool_t)]

/-- The byte ranges, each a start and a length, where a pool keeps its bookkeeping: the pool
header, the header `ngx_pool_data_t` at the start of every region but the first, and the
large slots. -/
def bookkeeping_ranges (cfg : Platform) (pool : ngx_pool_t) : List (Nat × Nat) :=
  pool_header_range cfg pool
    ++ ((pool.d.drop 1).map (fun r => (r.addr, cfg.sizeof_ngx_pool_data_t))
      ++ pool.large.map (fun l => (l.addr, cfg.sizeof_ngx_pool_large_t)))

/-- The `ngx_pool_cleanup_t` at the address `a` shares a byte with one of the ranges. -/
def touches (cfg : Platform) (ranges : List (Nat × Nat)) (a : Nat) : Bool :=
  ranges.any (fun r => decide (ranges_overlap a cfg.sizeof_ngx_pool_cleanup_t r.1 r.2))

/-- Memory after stores into some of the ranges: an entry that shares a byte with one of the
ranges is not known any more, the others are as before. -/
def clobber (cfg : Platform) (ranges : List (Nat × Nat)) (cell : Nat → cleanup_cell) :
    Nat → cleanup_cell :=
  fun a => if touches cfg ranges a then { handler := none, data := none, next := none }
    else cell a

/-- Memory after stores into fields of the `ngx_pool_cleanup_t` at the address `c`, `f` being
what the stores do to the fields: an entry at another address that shares a byte with it is
not known any more. -/
def store_entry (cfg : Platform) (c : Nat) (f : cleanup_cell → cleanup_cell)
    (cell : Nat → cleanup_cell) : Nat → cleanup_cell :=
  fun a => if a = c then f (cell a)
    else if ranges_overlap a cfg.sizeof_ngx_pool_cleanup_t c cfg.sizeof_ngx_pool_cleanup_t then
      { handler := none, data := none, next := none }
    else cell a

/-- The function `ngx_create_pool(size, log)` with the memory of the cleanup entries: the
pointer `p->cleanup` is `NULL` and nothing is known of memory. -/
def ngx_create_pool_mem (cfg : Platform) (size p : Nat) : Option pool_mem :=
  (ngx_create_pool cfg size p).map (fun pool =>
    { pool := pool, head := 0, cell := fun _ => { handler := none, data := none, next := none } })

/-- The function `ngx_pool_cleanup_add(p, size)` with its stores: `c->data`, `c->handler`
and `c->next` are stored at the address `c` that `ngx_palloc` returned, and `p->cleanup`,
in the pool header, becomes `c`.  Each `ngx_palloc` stores into region headers and large
slots, after which an entry that shares a byte with the bookkeeping of the pool is not known.
The arguments `pc`, `mc`, `pd` and `md` are those of `ngx_pool_cleanup_add`. -/
def ngx_pool_cleanup_add_mem (cfg : Platform) (s : pool_mem) (size pc mc pd md : Nat) :
    Nat × pool_mem × List Event :=
  let c := ngx_palloc cfg s.pool cfg.sizeof_ngx_pool_cleanup_t pc mc
  let cell0 := clobber cfg (bookkeeping_ranges cfg c.2.1) s.cell
  if c.1 = 0 then (0, { s with pool := c.2.1, cell := cell0 }, c.2.2)
  else if size ≠ 0 then
    let data := ngx_palloc cfg c.2.1 size pd md
    let cell1 := store_entry cfg c.1 (fun e => { e with data := some data.1 })
      (clobber cfg (bookkeeping_ranges cfg data.2.1) cell0)
    if data.1 = 0 then (0, { s with pool := data.2.1, cell := cell1 }, c.2.2 ++ data.2.2)
    else
      (c.1,
       { pool := data.2.1
         head := c.1
         cell := clobber cfg (pool_header_range cfg data.2.1)
          (store_entry cfg c.1
            (fun e => { e with handler := some 0, next := some s.head }) cell1) },
       c.2.2 ++ data.2.2)
  else
    (c.1,
     { pool := c.2.1
       head := c.1
       cell := clobber cfg (pool_header_range cfg c.2.1)
        (store_entry cfg c.1
          (fun e => { e with handler := some 0, next := some s.head })
          (store_entry cfg c.1 (fun e => { e with data := some 0 }) cell0)) },
     c.2.2)

/-- The function `ngx_reset_pool(pool)` with the memory of the cleanup entries.  It stores
neither into `p->cleanup` nor into an entry; it stores into the region headers and gives the
blocks of the large list back, after which an entry that shares a byte with the bookkeeping
or with the start of such a block is not known. -/
def ngx_reset_pool_mem (cfg : Platform) (s : pool_mem) : pool_mem × List Event :=
  ({ s with
      pool := (ngx_reset_pool cfg s.pool).1
      cell := clobber cfg
        (bookkeeping_ranges cfg s.pool
          ++ (s.pool.large.filter (fun l => decide (l.alloc ≠ 0))).map (fun l => (l.alloc, 1)))
        s.cell },
   (ngx_reset_pool cfg s.pool).2)

/-- The first loop of `ngx_destroy_pool` on the entries in memory, `c` being the pointer of
the loop.  The result is the handler calls of at most `fuel` iterations and whether the loop
has come to its end, or `none` when the loop reads a field that is not known. -/
def destroy_run_cleanup_mem (cell : Nat → cleanup_cell) : Nat → Nat → Option (List Event × Bool)
  | fuel, c =>
    if c = 0 then some ([], true)
    else
      match fuel with
      | 0 => some ([], false)
      | fuel + 1 =>
        match (cell c).handler, (cell c).next with
        | some h, some n =>
          if h ≠ 0 then
            match (cell c).data with
            | some d =>
              (destroy_run_cleanup_mem cell fuel n).map (fun r => (Event.call h d :: r.1, r.2))
            | none => none
          else destroy_run_cleanup_mem cell fuel n
        | _, _ => none

/-- The function `ngx_destroy_pool(pool)`, built without `NGX_DEBUG`, on the entries in
memory: the cleanup handlers and, once that loop has ended, the calls of `ngx_free` of
`ngx_destroy_pool`. -/
def ngx_destroy_pool_mem (fuel : Nat) (s : pool_mem) : Option (List Event × Bool) :=
  (destroy_run_cleanup_mem s.cell fuel s.head).map (fun r =>
    if r.2 then
      (r.1 ++ reset_free_large s.pool.large ++ s.pool.d.map (fun p => Event.free p.addr), true)
    else (r.1, false))

/-- Following the spec's words ("Caller subsequently assigns a handler"): one registration,
which is `ngx_pool_cleanup_add` and, when it returned an entry and the caller has a handler
for it, the store `c->handler = h` of the caller into that entry. -/
def register (cfg : Platform) (s : pool_mem) (r : cleanup_reg) : Nat × pool_mem :=
  let a := ngx_pool_cleanup_add_mem cfg s r.size r.pc r.mc r.pd r.md
  if a.1 = 0 ∨ r.handler = 0 then (a.1, a.2.1)
  else
    (a.1,
     { a.2.1 with
        cell := store_entry cfg a.1 (fun e => { e with handler := some r.handler }) a.2.1.cell })

/-- A sequence of registrations on one pool: the pointers that `ngx_pool_cleanup_add`
returned, in registration order, and the pool with its memory. -/
def run_regs (cfg : Platform) : pool_mem → List cleanup_reg → List Nat × pool_mem
  | s, [] => ([], s)
  | s, r :: rs =>
    ((register cfg s r).1 :: (run_regs cfg (register cfg s r).2 rs).1,
     (run_regs cfg (register cfg s r).2 rs).2)

/-- The entries `l`, in this order, are the list in memory that starts at the pointer `c`:
each is at its address with its handler and its data, and `next` leads to the entry after it
and from the last entry to `NULL`. -/
def is_chain (cell : Nat → cleanup_cell) : Nat → List ngx_pool_cleanup_t → Bool
  | c, [] => decide (c = 0)
  | c, e :: rest =>
    decide (c ≠ 0) && decide (c = e.addr) && decide ((cell c).handler = some e.handler)
      && decide ((cell c).data = some e.data)
      && (match (cell c).next with
          | some n => is_chain cell n rest
          | none => false)

/-- The registration `r` hands out fresh memory: the entry that `ngx_palloc` returns shares
no byte with an entry at one of the addresses `live`, and neither that entry nor those at
`live` share a byte with the bookkeeping of the pool as it is after each `ngx_palloc`. -/
def add_fresh (cfg : Platform) (s : pool_mem) (live : List Nat) (r : cleanup_reg) : Bool :=
  let c := ngx_palloc cfg s.pool cfg.sizeof_ngx_pool_cleanup_t r.pc r.mc
  let data := ngx_palloc cfg c.2.1 r.size r.pd r.md
  live.all (fun a => !decide (ranges_overlap a cfg.sizeof_ngx_pool_cleanup_t c.1
      cfg.sizeof_ngx_pool_cleanup_t))
    && (c.1 :: live).all (fun a => !touches cfg (bookkeeping_ranges cfg c.2.1) a
      && (decide (r.size = 0) || !touches cfg (bookkeeping_ranges cfg data.2.1) a))

/-- Every registration of the sequence hands out fresh memory, `live` being the addresses of
the entries of the cleanup list before the sequence. -/
def regs_fresh (cfg : Platform) : pool_mem → List Nat → List cleanup_reg → Bool
  | _, _, [] => true
  | s, live, r :: rs =>
    add_fresh cfg s live r
      && regs_fresh cfg (register cfg s r).2 ((register cfg s r).1 :: live) rs

/-- The pool that `ngx_create_pool(1024)` builds on LP64 in a block at address 4096, with
its memory. -/
def pool_mem_1024 : pool_mem :=
  { pool := pool_1024
    head := 0
    cell := fun _ => { handler := none, data := none, next := none } }

/-- The pool `pool_mem_1024` after a registration with the handler 101, `ngx_reset_pool` and
a registration with the handler 102. -/
def pool_mem_relinked : pool_mem :=
  (register lp64
    (ngx_reset_pool_mem lp64
      (register lp64 pool_mem_1024
        { size := 0, handler := 101, pc := 0, mc := 0, pd := 0, md := 0 }).2).1
    { size := 0, handler := 102, pc := 0, mc := 0, pd := 0, md := 0 }).2

/-! ## Lemmas on the arithmetic and on the loops -/

theorem size_t_sub_of_le (a b : Nat) (h : b ≤ a) (hw : a < 2 ^ 64) : size_t_sub a b = a - b := by
  unfold size_t_sub
  omega

theorem size_t_sub_of_gt (a b : Nat) (h : a < b) (hw : b - a ≤ 2 ^ 64) :
    size_t_sub a b = 2 ^ 64 - (b - a) := by
  unfold size_t_sub
  omega

theorem palloc_block_loop_geom (rs : List ngx_pool_data_t) (i cur : Nat) :
    (palloc_block_loop rs i cur).1.map region_geom = rs.map region_geom := by
  induction rs generalizing i cur with
  | nil => rfl
  | cons p rest ih =>
    cases rest with
    | nil => rfl
    | cons q rest =>
      simp only [palloc_block_loop, List.map_cons]
      rw [ih]
      simp [region_geom]

theorem ngx_palloc_block_keeps (cfg : Platform) (pool : ngx_pool_t) (size m : Nat) :
    (ngx_palloc_block cfg pool size m).2.large = pool.large ∧
    (ngx_palloc_block cfg pool size m).2.max = pool.max ∧
    (ngx_palloc_block cfg pool size m).2.cleanup = pool.cleanup := by
  unfold ngx_palloc_block
  split
  · exact ⟨rfl, rfl, rfl⟩
  · by_cases hm : m = 0
    · simp [hm]
    · simp [hm]

theorem ngx_palloc_small_keeps (cfg : Platform) (pool : ngx_pool_t) (size align m : Nat) :
    (ngx_palloc_small cfg pool size align m).2.large = pool.large ∧
    (ngx_palloc_small cfg pool size align m).2.max = pool.max ∧
    (ngx_palloc_small cfg pool size align m).2.cleanup = pool.cleanup := by
  unfold ngx_palloc_small
  split
  · exact ⟨rfl, rfl, rfl⟩
  · exact ngx_palloc_block_keeps cfg pool size m

theorem pfree_loop_none (p : Nat) (ls : List ngx_pool_large_t) (h : ∀ x ∈ ls, x.alloc ≠ p) :
    pfree_loop p ls = none := by
  induction ls with
  | nil => rfl
  | cons l ls ih =>
    have hl : ¬ p = l.alloc := fun e => h l (List.mem_cons_self _ _) e.symm
    rw [pfree_loop]
    simp only [hl, if_false]
    rw [ih (fun x hx => h x (List.mem_cons_of_mem _ hx))]
    rfl

theorem pfree_loop_some (p : Nat) (pre : List ngx_pool_large_t) (l : ngx_pool_large_t)
    (post : List ngx_pool_large_t) (hpre : ∀ x ∈ pre, x.alloc ≠ p) (hl : l.alloc = p) :
    pfree_loop p (pre ++ l :: post) = some (pre ++ { l with alloc := 0 } :: post) := by
  induction pre with
  | nil => simp [pfree_loop, hl]
  | cons y pre ih =>
    have hy : ¬ p = y.alloc := fun e => hpre y (List.mem_cons_self _ _) e.symm
    rw [List.cons_append, pfree_loop]
    simp only [hy, if_false]
    rw [ih (fun x hx => hpre x (List.mem_cons_of_mem _ hx))]
    rfl

theorem first_match_split (p : Nat) (ls : List ngx_pool_large_t)
    (h : p ∈ ls.map (fun x => x.alloc)) :
    ∃ pre l post, ls = pre ++ l :: post ∧ (∀ x ∈ pre, x.alloc ≠ p) ∧ l.alloc = p := by
  induction ls with
  | nil => simp at h
  | cons y ls ih =>
    by_cases hy : y.alloc = p
    · exact ⟨[], y, ls, rfl, by simp, hy⟩
    · have h2 : p ∈ ls.map (fun x => x.alloc) := by
        simp only [List.map_cons, List.mem_cons] at h
        rcases h with h | h
        · exact absurd h.symm hy
        · exact h
      obtain ⟨pre, l, post, e, hpre, hl⟩ := ih h2
      refine ⟨y :: pre, l, post, by rw [e]; rfl, ?_, hl⟩
      intro x hx
      simp only [List.mem_cons] at hx
      rcases hx with hx | hx
      · rw [hx]; exact hy
      · exact hpre x hx

theorem ngx_pfree_of_match (pool : ngx_pool_t) (p : Nat) (pre : List ngx_pool_large_t)
    (l : ngx_pool_large_t) (post : List ngx_pool_large_t) (hlist : pool.large = pre ++ l :: post)
    (hpre : ∀ x ∈ pre, x.alloc ≠ p) (hl : l.alloc = p) :
    ngx_pfree pool p
      = (NGX_OK, { pool with large := pre ++ { l with alloc := 0 } :: post }, [Event.free p]) := by
  unfold ngx_pfree
  rw [hlist, pfree_loop_some p pre l post hpre hl]

theorem ngx_pfree_of_no_match (pool : ngx_pool_t) (p : Nat)
    (h : ∀ x ∈ pool.large, x.alloc ≠ p) : ngx_pfree pool p = (NGX_DECLINED, pool, []) := by
  unfold ngx_pfree
  rw [pfree_loop_none p pool.large h]

theorem palloc_block_loop_frame (rs : List ngx_pool_data_t) (i cur : Nat) :
    (palloc_block_loop rs i cur).1.map region_frame = rs.map region_frame := by
  induction rs generalizing i cur with
  | nil => rfl
  | cons p rest ih =>
    cases rest with
    | nil => rfl
    | cons q rest =>
      simp only [palloc_block_loop, List.map_cons]
      rw [ih]
      simp [region_frame]

theorem palloc_small_loop_frame (cfg : Platform) (size align : Nat) (rs : List ngx_pool_data_t)
    (r : Nat × List ngx_pool_data_t) (h : palloc_small_loop cfg size align rs = some r) :
    r.2.map region_frame = rs.map region_frame := by
  induction rs generalizing r with
  | nil => simp [palloc_small_loop] at h
  | cons p rest ih =>
    rw [palloc_small_loop] at h
    by_cases hge : size_t_sub p.end_
        (if align ≠ 0 then ngx_align_ptr p.last cfg.NGX_ALIGNMENT else p.last) ≥ size
    · simp only [hge, if_true, Option.some.injEq] at h
      rw [← h]
      simp [region_frame]
    · simp only [hge, if_false] at h
      cases hrec : palloc_small_loop cfg size align rest with
      | none => rw [hrec] at h; simp at h
      | some r1 =>
        rw [hrec] at h
        simp only [Option.map_some', Option.some.injEq] at h
        rw [← h]
        simp only [List.map_cons]
        rw [ih r1 hrec]

theorem ngx_palloc_block_frame (cfg : Platform) (pool : ngx_pool_t) (size m : Nat) :
    ∃ ext, (ngx_palloc_block cfg pool size m).2.d.map region_frame
      = pool.d.map region_frame ++ ext := by
  unfold ngx_palloc_block
  split
  · exact ⟨[], by simp⟩
  · by_cases hm : m = 0
    · exact ⟨[], by simp [hm]⟩
    · simp only [hm, if_false, List.map_append, palloc_block_loop_frame]
      rw [← List.map_append, List.take_append_drop]
      exact ⟨_, rfl⟩

theorem ngx_palloc_small_frame (cfg : Platform) (pool : ngx_pool_t) (size align m : Nat) :
    ∃ ext, (ngx_palloc_small cfg pool size align m).2.d.map region_frame
      = pool.d.map region_frame ++ ext := by
  unfold ngx_palloc_small
  split
  · rename_i r hr
    refine ⟨[], ?_⟩
    simp only [List.map_append, List.append_nil]
    rw [palloc_small_loop_frame cfg size align _ r hr, ← List.map_append, List.take_append_drop]
  · exact ngx_palloc_block_frame cfg pool size m

theorem ngx_palloc_large_keeps (cfg : Platform) (pool : ngx_pool_t) (size p m : Nat) :
    (∃ ext, (ngx_palloc_large cfg pool size p m).2.1.d.map region_frame
      = pool.d.map region_frame ++ ext) ∧
    (ngx_palloc_large cfg pool size p m).2.1.max = pool.max ∧
    (ngx_palloc_large cfg pool size p m).2.1.cleanup = pool.cleanup := by
  have hk := ngx_palloc_small_keeps cfg pool cfg.sizeof_ngx_pool_large_t 1 m
  have hf := ngx_palloc_small_frame cfg pool cfg.sizeof_ngx_pool_large_t 1 m
  unfold ngx_palloc_large
  by_cases hp : p = 0
  · refine ⟨⟨[], ?_⟩, ?_, ?_⟩ <;> simp [hp]
  · simp only [hp, if_false]
    split
    · exact ⟨⟨[], by simp⟩, rfl, rfl⟩
    · split
      · exact ⟨hf, hk.2.1, hk.2.2⟩
      · exact ⟨hf, hk.2.1, hk.2.2⟩

theorem small_call_keeps (cfg : Platform) (pool : ngx_pool_t) (c : small_call) :
    (∃ ext, (if c.align then ngx_palloc cfg pool c.size c.alloc_ret c.memalign_ret
        else ngx_pnalloc cfg pool c.size c.alloc_ret c.memalign_ret).2.1.d.map region_frame
      = pool.d.map region_frame ++ ext) ∧
    (if c.align then ngx_palloc cfg pool c.size c.alloc_ret c.memalign_ret
        else ngx_pnalloc cfg pool c.size c.alloc_ret c.memalign_ret).2.1.max = pool.max ∧
    (if c.align then ngx_palloc cfg pool c.size c.alloc_ret c.memalign_ret
        else ngx_pnalloc cfg pool c.size c.alloc_ret c.memalign_ret).2.1.cleanup
      = pool.cleanup := by
  cases c.align
  · simp only [Bool.false_eq_true, if_false]
    unfold ngx_pnalloc
    split
    · exact ⟨ngx_palloc_small_frame cfg pool c.size 0 c.memalign_ret,
        (ngx_palloc_small_keeps cfg pool c.size 0 c.memalign_ret).2⟩
    · exact ngx_palloc_large_keeps cfg pool c.size c.alloc_ret c.memalign_ret
  · simp only [if_true]
    unfold ngx_palloc
    split
    · exact ⟨ngx_palloc_small_frame cfg pool c.size 1 c.memalign_ret,
        (ngx_palloc_small_keeps cfg pool c.size 1 c.memalign_ret).2⟩
    · exact ngx_palloc_large_keeps cfg pool c.size c.alloc_ret c.memalign_ret

theorem run_calls_keeps (cfg : Platform) (pool : ngx_pool_t) (calls : List small_call) :
    (∃ ext, (run_calls cfg pool calls).2.d.map region_frame = pool.d.map region_frame ++ ext) ∧
    (run_calls cfg pool calls).2.max = pool.max ∧
    (run_calls cfg pool calls).2.cleanup = pool.cleanup := by
  induction calls generalizing pool with
  | nil => exact ⟨⟨[], by simp [run_calls]⟩, rfl, rfl⟩
  | cons c cs ih =>
    obtain ⟨⟨e1, h1⟩, h2, h3⟩ := small_call_keeps cfg pool c
    obtain ⟨⟨e2, k1⟩, k2, k3⟩ := ih
      (if c.align then ngx_palloc cfg pool c.size c.alloc_ret c.memalign_ret
        else ngx_pnalloc cfg pool c.size c.alloc_ret c.memalign_ret).2.1
    simp only [run_calls]
    refine ⟨⟨e1 ++ e2, ?_⟩, ?_, ?_⟩
    · rw [k1, h1, List.append_assoc]
    · rw [k2, h2]
    · rw [k3, h3]

theorem reset_of_one_region (cfg : Platform) (R p : Nat) (pool : ngx_pool_t)
    (calls : List small_call) (hcreate : ngx_create_pool cfg R p = some pool)
    (hone : (run_calls cfg pool calls).2.d.length = 1) :
    (ngx_reset_pool cfg (run_calls cfg pool calls).2).1 = pool := by
  obtain ⟨⟨ext, hf⟩, hmax, hcl⟩ := run_calls_keeps cfg pool calls
  unfold ngx_create_pool at hcreate
  by_cases hp : p = 0
  · simp [hp] at hcreate
  · simp only [hp, if_false, Option.some.injEq] at hcreate
    subst hcreate
    simp only at hf hmax hcl
    generalize run_calls cfg _ calls = res at *
    obtain ⟨addrs, fin⟩ := res
    obtain ⟨d, mx, cur, lg, cl⟩ := fin
    simp only at hf hmax hcl hone
    match d, hone, hf with
    | [r], _, hf =>
      simp only [List.map_cons, List.map_nil, List.singleton_append, List.cons.injEq,
        region_frame, Prod.mk.injEq] at hf
      obtain ⟨⟨ha, he⟩, -⟩ := hf
      simp [ngx_reset_pool, ha, he, hmax, hcl]

theorem run_calls_unaligned_one_region (cfg : Platform) (calls : List small_call)
    (pool : ngx_pool_t) (r : ngx_pool_data_t) (hd : pool.d = [r]) (hcur : pool.current = 0)
    (hun : ∀ c ∈ calls, c.align = false) (hsmall : ∀ c ∈ calls, c.size ≤ pool.max)
    (hfit : r.last + (calls.map (fun c => c.size)).sum ≤ r.end_) (hword : r.end_ < 2 ^ 64) :
    (run_calls cfg pool calls).2.d.length = 1 := by
  induction calls generalizing pool r with
  | nil => simp [run_calls, hd]
  | cons c cs ih =>
    have hc : c.align = false := hun c (List.mem_cons_self _ _)
    have hs : c.size ≤ pool.max := hsmall c (List.mem_cons_self _ _)
    simp only [List.map_cons, List.sum_cons] at hfit
    have hsub : size_t_sub r.end_ r.last = r.end_ - r.last :=
      size_t_sub_of_le _ _ (by omega) hword
    have hstep : ngx_pnalloc cfg pool c.size c.alloc_ret c.memalign_ret
        = (r.last, { pool with d := [{ r with last := r.last + c.size }] }, []) := by
      unfold ngx_pnalloc
      simp only [hs, if_true]
      unfold ngx_palloc_small
      rw [hcur, hd]
      have hge : size_t_sub r.end_ r.last ≥ c.size := by rw [hsub]; omega
      simp [palloc_small_loop, hge]
    simp only [run_calls, hc, Bool.false_eq_true, if_false, hstep]
    exact ih _ { r with last := r.last + c.size } rfl hcur
      (fun x hx => hun x (List.mem_cons_of_mem _ hx))
      (fun x hx => hsmall x (List.mem_cons_of_mem _ hx))
      (by simp only; omega) hword

theorem palloc_small_loop_first_fit (cfg : Platform) (size align : Nat)
    (pre : List ngx_pool_data_t) (r : ngx_pool_data_t) (post : List ngx_pool_data_t)
    (hpre : ∀ x ∈ pre, request_cursor cfg x align ≤ x.end_ ∧ x.end_ < 2 ^ 64 ∧
      ¬ spec_region_covers cfg x size align)
    (hr : spec_region_covers cfg r size align) (hword : r.end_ < 2 ^ 64) :
    palloc_small_loop cfg size align (pre ++ r :: post)
      = some (request_cursor cfg r align,
          pre ++ { r with last := request_cursor cfg r align + size } :: post) := by
  induction pre with
  | nil =>
    have hsub := size_t_sub_of_le r.end_ (request_cursor cfg r align) hr.1 hword
    have hge : size_t_sub r.end_ (request_cursor cfg r align) ≥ size := by
      rw [hsub]
      exact hr.2
    rw [List.nil_append, palloc_small_loop]
    unfold request_cursor at hge ⊢
    simp only [hge, if_true]
    rfl
  | cons x pre ih =>
    obtain ⟨hle, hw, hno⟩ := hpre x (List.mem_cons_self _ _)
    have hsub := size_t_sub_of_le x.end_ (request_cursor cfg x align) hle hw
    have hlt : ¬ size_t_sub x.end_ (request_cursor cfg x align) ≥ size := by
      rw [hsub]
      intro hge
      exact hno ⟨hle, hge⟩
    rw [List.cons_append, palloc_small_loop]
    unfold request_cursor at hlt
    simp only [hlt, if_false]
    rw [ih (fun y hy => hpre y (List.mem_cons_of_mem _ hy))]
    rfl

/-- First fit where no cursor has passed its limit: when the regions from `current` on are
`pre ++ r :: post`, no region of `pre` has room for the request, and `r` has, then
`ngx_palloc_small` returns the (possibly aligned) cursor of `r`, moves that cursor past the
request and changes nothing else. -/
theorem ngx_palloc_small_first_fit (cfg : Platform) (pool : ngx_pool_t) (size align m : Nat)
    (pre : List ngx_pool_data_t) (r : ngx_pool_data_t) (post : List ngx_pool_data_t)
    (hsplit : pool.d.drop pool.current = pre ++ r :: post)
    (hpre : ∀ x ∈ pre, request_cursor cfg x align ≤ x.end_ ∧ x.end_ < 2 ^ 64 ∧
      ¬ spec_region_covers cfg x size align)
    (hr : spec_region_covers cfg r size align) (hword : r.end_ < 2 ^ 64) :
    ngx_palloc_small cfg pool size align m
      = (request_cursor cfg r align,
         { pool with
            d := pool.d.take pool.current
              ++ (pre ++ { r with last := request_cursor cfg r align + size } :: post) }) := by
  unfold ngx_palloc_small
  rw [hsplit, palloc_small_loop_first_fit cfg size align pre r post hpre hr hword]

theorem ngx_align_ptr_ge (p a : Nat) (ha : 0 < a) : p ≤ ngx_align_ptr p a := by
  unfold ngx_align_ptr
  have h1 := Nat.div_add_mod (p + (a - 1)) a
  have h2 := Nat.mod_lt (p + (a - 1)) ha
  rw [Nat.mul_comm] at h1
  omega

theorem palloc_small_loop_ret_pos (cfg : Platform) (size align : Nat)
    (rs : List ngx_pool_data_t) (r : Nat × List ngx_pool_data_t)
    (hal : 0 < cfg.NGX_ALIGNMENT) (hcur : ∀ x ∈ rs, x.last ≠ 0)
    (h : palloc_small_loop cfg size align rs = some r) : r.1 ≠ 0 := by
  induction rs generalizing r with
  | nil => simp [palloc_small_loop] at h
  | cons p rest ih =>
    have hp : p.last ≠ 0 := hcur p (List.mem_cons_self _ _)
    have hge := ngx_align_ptr_ge p.last cfg.NGX_ALIGNMENT hal
    rw [palloc_small_loop] at h
    by_cases hfit : size_t_sub p.end_
        (if align ≠ 0 then ngx_align_ptr p.last cfg.NGX_ALIGNMENT else p.last) ≥ size
    · simp only [hfit, if_true, Option.some.injEq] at h
      rw [← h]
      simp only
      split <;> omega
    · simp only [hfit, if_false] at h
      cases hrec : palloc_small_loop cfg size align rest with
      | none => rw [hrec] at h; simp at h
      | some r1 =>
        rw [hrec] at h
        simp only [Option.map_some', Option.some.injEq] at h
        rw [← h]
        exact ih r1 (fun x hx => hcur x (List.mem_cons_of_mem _ hx)) hrec

theorem ngx_palloc_block_null (cfg : Platform) (pool : ngx_pool_t) (size m : Nat)
    (hal : 0 < cfg.NGX_ALIGNMENT) (h : (ngx_palloc_block cfg pool size m).1 = 0) :
    ngx_palloc_block cfg pool size m = (0, pool) := by
  unfold ngx_palloc_block at h ⊢
  split
  · rfl
  · by_cases hm : m = 0
    · simp [hm]
    · exfalso
      rename_i hd tl heq
      rw [heq] at h
      simp only [hm, if_false] at h
      have hge := ngx_align_ptr_ge (m + cfg.sizeof_ngx_pool_data_t) cfg.NGX_ALIGNMENT hal
      omega

theorem ngx_palloc_small_null (cfg : Platform) (pool : ngx_pool_t) (size align m : Nat)
    (hal : 0 < cfg.NGX_ALIGNMENT) (hcur : ∀ r ∈ pool.d, r.last ≠ 0)
    (h : (ngx_palloc_small cfg pool size align m).1 = 0) :
    ngx_palloc_small cfg pool size align m = (0, pool) := by
  unfold ngx_palloc_small at h ⊢
  cases hloop : palloc_small_loop cfg size align (pool.d.drop pool.current) with
  | some r =>
    exfalso
    rw [hloop] at h
    exact palloc_small_loop_ret_pos cfg size align _ r hal
      (fun x hx => hcur x (List.mem_of_mem_drop hx)) hloop h
  | none =>
    rw [hloop] at h
    exact ngx_palloc_block_null cfg pool size m hal h

theorem palloc_block_loop_visited (visited : List ngx_pool_data_t) (tail : ngx_pool_data_t)
    (i cur : Nat) :
    (palloc_block_loop (visited ++ [tail]) i cur).1 = visited.map count_failure ++ [tail] := by
  induction visited generalizing i cur with
  | nil => rfl
  | cons v vs ih =>
    cases hvs : vs ++ [tail] with
    | nil => simp at hvs
    | cons q rest =>
      rw [List.cons_append, hvs, palloc_block_loop]
      simp only
      rw [← hvs, ih]
      rfl

theorem palloc_block_loop_current_same (visited : List ngx_pool_data_t)
    (tail : ngx_pool_data_t) (i cur : Nat) (h : ∀ x ∈ visited, x.failed ≤ 4) :
    (palloc_block_loop (visited ++ [tail]) i cur).2 = cur := by
  induction visited generalizing i cur with
  | nil => rfl
  | cons v vs ih =>
    have hv : ¬ v.failed > 4 := by
      have := h v (List.mem_cons_self _ _)
      omega
    cases hvs : vs ++ [tail] with
    | nil => simp at hvs
    | cons q rest =>
      rw [List.cons_append, hvs, palloc_block_loop]
      simp only [hv, if_false]
      rw [← hvs]
      exact ih (i + 1) cur (fun x hx => h x (List.mem_cons_of_mem _ hx))

theorem palloc_block_loop_current_moved (v1 : List ngx_pool_data_t) (r : ngx_pool_data_t)
    (v2 : List ngx_pool_data_t) (tail : ngx_pool_data_t) (i cur : Nat) (hr : 4 < r.failed)
    (h2 : ∀ x ∈ v2, x.failed ≤ 4) :
    (palloc_block_loop ((v1 ++ r :: v2) ++ [tail]) i cur).2 = i + v1.length + 1 := by
  induction v1 generalizing i cur with
  | nil =>
    cases hvs : v2 ++ [tail] with
    | nil => simp at hvs
    | cons q rest =>
      rw [List.nil_append, List.cons_append, hvs, palloc_block_loop]
      simp only [hr, if_true]
      rw [← hvs, palloc_block_loop_current_same v2 tail (i + 1) (i + 1) h2]
      simp
  | cons v vs ih =>
    cases hvs : (vs ++ r :: v2) ++ [tail] with
    | nil => simp at hvs
    | cons q rest =>
      rw [List.cons_append, List.cons_append, hvs, palloc_block_loop]
      simp only
      rw [← hvs, ih]
      simp only [List.length_cons]
      omega

theorem palloc_block_loop_current_bound (rs : List ngx_pool_data_t) (i cur : Nat) :
    (palloc_block_loop rs i cur).2 = cur ∨
      (i < (palloc_block_loop rs i cur).2 ∧ (palloc_block_loop rs i cur).2 < i + rs.length) := by
  induction rs generalizing i cur with
  | nil => exact Or.inl rfl
  | cons p rest ih =>
    cases rest with
    | nil => exact Or.inl rfl
    | cons q rest =>
      rw [palloc_block_loop]
      simp only [List.length_cons] at ih ⊢
      rcases ih (i + 1) (if p.failed > 4 then i + 1 else cur) with h | ⟨h1, h2⟩
      · rw [h]
        split
        · right; omega
        · left; rfl
      · right
        omega

theorem palloc_block_loop_length (rs : List ngx_pool_data_t) (i cur : Nat) :
    (palloc_block_loop rs i cur).1.length = rs.length := by
  have h := congrArg List.length (palloc_block_loop_geom rs i cur)
  simpa using h

theorem ngx_palloc_block_eq (cfg : Platform) (pool : ngx_pool_t) (size m : Nat)
    (hd : ngx_pool_data_t) (tl : List ngx_pool_data_t) (hchain : pool.d = hd :: tl)
    (hm : m ≠ 0) :
    ngx_palloc_block cfg pool size m
      = (ngx_align_ptr (m + cfg.sizeof_ngx_pool_data_t) cfg.NGX_ALIGNMENT,
         { pool with
            d := pool.d.take pool.current
              ++ (palloc_block_loop (pool.d.drop pool.current) pool.current pool.current).1
              ++ [{ addr := m
                    last := ngx_align_ptr (m + cfg.sizeof_ngx_pool_data_t) cfg.NGX_ALIGNMENT
                      + size
                    end_ := m + size_t_sub hd.end_ hd.addr
                    failed := 0 }]
            current :=
              (palloc_block_loop (pool.d.drop pool.current) pool.current pool.current).2 }) := by
  unfold ngx_palloc_block
  rw [hchain] at *
  simp only [hm, if_false]

theorem pool_step_ok_refl (a : ngx_pool_t) : pool_step_ok a a := ⟨rfl, fun h => h⟩

theorem pool_step_ok_trans (a b c : ngx_pool_t) (h1 : pool_step_ok a b)
    (h2 : pool_step_ok b c) : pool_step_ok a c :=
  ⟨h2.1.trans h1.1, fun h => h2.2 (h1.2 h)⟩

theorem ngx_palloc_block_step (cfg : Platform) (pool : ngx_pool_t) (size m : Nat) :
    pool_step_ok pool (ngx_palloc_block cfg pool size m).2 := by
  cases hchain : pool.d with
  | nil =>
    have h : ngx_palloc_block cfg pool size m = (0, pool) := by
      unfold ngx_palloc_block
      rw [hchain]
    rw [h]
    exact pool_step_ok_refl pool
  | cons hd tl =>
    by_cases hm : m = 0
    · have h : ngx_palloc_block cfg pool size m = (0, pool) := by
        unfold ngx_palloc_block
        rw [hchain]
        simp [hm]
      rw [h]
      exact pool_step_ok_refl pool
    · rw [ngx_palloc_block_eq cfg pool size m hd tl hchain hm]
      refine ⟨rfl, ?_⟩
      intro hvalid
      simp only [List.length_append, List.length_singleton, palloc_block_loop_length,
        List.length_take, List.length_drop]
      have hb := palloc_block_loop_current_bound (pool.d.drop pool.current) pool.current
        pool.current
      simp only [List.length_drop] at hb
      omega

theorem ngx_palloc_small_step (cfg : Platform) (pool : ngx_pool_t) (size align m : Nat) :
    pool_step_ok pool (ngx_palloc_small cfg pool size align m).2 := by
  unfold ngx_palloc_small
  cases hloop : palloc_small_loop cfg size align (pool.d.drop pool.current) with
  | none => exact ngx_palloc_block_step cfg pool size m
  | some r =>
    refine ⟨rfl, ?_⟩
    intro hvalid
    have hlen := congrArg List.length (palloc_small_loop_frame cfg size align _ r hloop)
    simp only [List.length_map, List.length_drop] at hlen
    simp only [List.length_append, List.length_take, hlen]
    omega

theorem ngx_palloc_large_step (cfg : Platform) (pool : ngx_pool_t) (size p m : Nat) :
    pool_step_ok pool (ngx_palloc_large cfg pool size p m).2.1 := by
  have hs := ngx_palloc_small_step cfg pool cfg.sizeof_ngx_pool_large_t 1 m
  unfold ngx_palloc_large
  by_cases hp : p = 0
  · simp only [hp, if_true]
    exact pool_step_ok_refl pool
  · simp only [hp, if_false]
    split
    · exact ⟨rfl, fun h => h⟩
    · split
      · exact hs
      · exact ⟨hs.1, hs.2⟩

theorem ngx_pmemalign_step (cfg : Platform) (pool : ngx_pool_t) (size alignment p m : Nat) :
    pool_step_ok pool (ngx_pmemalign cfg pool size alignment p m).2.1 := by
  have hs := ngx_palloc_small_step cfg pool cfg.sizeof_ngx_pool_large_t 1 m
  unfold ngx_pmemalign
  by_cases hp : p = 0
  · simp only [hp, if_true]
    exact pool_step_ok_refl pool
  · simp only [hp, if_false]
    split
    · exact hs
    · exact ⟨hs.1, hs.2⟩

theorem ngx_palloc_step (cfg : Platform) (pool : ngx_pool_t) (size p m : Nat) :
    pool_step_ok pool (ngx_palloc cfg pool size p m).2.1 := by
  unfold ngx_palloc
  split
  · exact ngx_palloc_small_step cfg pool size 1 m
  · exact ngx_palloc_large_step cfg pool size p m

theorem ngx_pnalloc_step (cfg : Platform) (pool : ngx_pool_t) (size p m : Nat) :
    pool_step_ok pool (ngx_pnalloc cfg pool size p m).2.1 := by
  unfold ngx_pnalloc
  split
  · exact ngx_palloc_small_step cfg pool size 0 m
  · exact ngx_palloc_large_step cfg pool size p m

theorem ngx_pfree_step (pool : ngx_pool_t) (p : Nat) :
    pool_step_ok pool (ngx_pfree pool p).2.1 := by
  unfold ngx_pfree
  split
  · exact ⟨rfl, fun h => h⟩
  · exact pool_step_ok_refl pool

theorem ngx_pool_cleanup_add_step (cfg : Platform) (pool : ngx_pool_t)
    (size pc mc pd md : Nat) :
    pool_step_ok pool (ngx_pool_cleanup_add cfg pool size pc mc pd md).2.1 := by
  have h1 := ngx_palloc_step cfg pool cfg.sizeof_ngx_pool_cleanup_t pc mc
  have h2 := ngx_palloc_step cfg (ngx_palloc cfg pool cfg.sizeof_ngx_pool_cleanup_t pc mc).2.1
    size pd md
  have h12 := pool_step_ok_trans _ _ _ h1 h2
  unfold ngx_pool_cleanup_add
  simp only
  split
  · exact h1
  · split
    · split
      · exact h12
      · exact ⟨h12.1, h12.2⟩
    · exact ⟨h1.1, h1.2⟩

theorem ngx_reset_pool_step (cfg : Platform) (pool : ngx_pool_t) :
    pool_step_ok pool (ngx_reset_pool cfg pool).1 := by
  refine ⟨rfl, ?_⟩
  intro hvalid
  simp only [ngx_reset_pool, List.length_map]
  omega

theorem apply_op_step (cfg : Platform) (pool : ngx_pool_t) (op : pool_op) :
    pool_step_ok pool (apply_op cfg pool op) := by
  cases op with
  | palloc size p m => exact ngx_palloc_step cfg pool size p m
  | pnalloc size p m => exact ngx_pnalloc_step cfg pool size p m
  | pcalloc size p m => exact ngx_palloc_step cfg pool size p m
  | pmemalign size alignment p m => exact ngx_pmemalign_step cfg pool size alignment p m
  | pfree p => exact ngx_pfree_step pool p
  | cleanup_add size pc mc pd md => exact ngx_pool_cleanup_add_step cfg pool size pc mc pd md
  | reset => exact ngx_reset_pool_step cfg pool

theorem run_ops_step (cfg : Platform) (pool : ngx_pool_t) (ops : List pool_op) :
    pool_step_ok pool (run_ops cfg pool ops) := by
  induction ops generalizing pool with
  | nil => exact pool_step_ok_refl pool
  | cons op ops ih =>
    exact pool_step_ok_trans _ _ _ (apply_op_step cfg pool op) (ih (apply_op cfg pool op))

theorem ngx_palloc_cleanup (cfg : Platform) (pool : ngx_pool_t) (size p m : Nat) :
    (ngx_palloc cfg pool size p m).2.1.cleanup = pool.cleanup := by
  unfold ngx_palloc
  split
  · exact (ngx_palloc_small_keeps cfg pool size 1 m).2.2
  · exact (ngx_palloc_large_keeps cfg pool size p m).2.2

theorem handler_calls_append (a b : List Event) :
    handler_calls (a ++ b) = handler_calls a ++ handler_calls b := by
  simp [handler_calls]

theorem handler_calls_cleanup (l : List ngx_pool_cleanup_t) :
    handler_calls (destroy_run_cleanup l) = destroy_run_cleanup l := by
  induction l with
  | nil => rfl
  | cons c rest ih =>
    rw [destroy_run_cleanup]
    split
    · simp only [handler_calls, List.filter_cons, if_true] at ih ⊢
      rw [ih]
    · exact ih

theorem handler_calls_free_large (l : List ngx_pool_large_t) :
    handler_calls (reset_free_large l) = [] := by
  induction l with
  | nil => rfl
  | cons c rest ih =>
    rw [reset_free_large]
    split
    · simp only [handler_calls, List.filter_cons] at ih ⊢
      simpa using ih
    · exact ih

theorem handler_calls_free_regions (l : List ngx_pool_data_t) :
    handler_calls (l.map (fun p => Event.free p.addr)) = [] := by
  induction l with
  | nil => rfl
  | cons c rest ih =>
    simp only [handler_calls, List.map_cons, List.filter_cons] at ih ⊢
    simp [ih]

theorem handler_calls_destroy (pool : ngx_pool_t) :
    handler_calls (ngx_destroy_pool pool) = destroy_run_cleanup pool.cleanup := by
  unfold ngx_destroy_pool
  rw [handler_calls_append, handler_calls_append, handler_calls_cleanup,
    handler_calls_free_large, handler_calls_free_regions]
  simp

theorem destroy_run_cleanup_eq_filter (l : List ngx_pool_cleanup_t) :
    destroy_run_cleanup l
      = (l.filter (fun c => decide (c.handler ≠ 0))).map
          (fun c => Event.call c.handler c.data) := by
  induction l with
  | nil => rfl
  | cons c rest ih =>
    rw [destroy_run_cleanup]
    by_cases h : c.handler = 0
    · simp [h, ih]
    · simp [h, ih]

theorem destroy_run_cleanup_append (a b : List ngx_pool_cleanup_t) :
    destroy_run_cleanup (a ++ b) = destroy_run_cleanup a ++ destroy_run_cleanup b := by
  simp [destroy_run_cleanup_eq_filter]

theorem run_cleanup_file_loop_none (h_file : Nat) (fd_at : Nat → Int) (fd : Int)
    (l : List ngx_pool_cleanup_t)
    (h : ∀ x ∈ l, ¬ (x.handler = h_file ∧ fd_at x.data = fd)) :
    run_cleanup_file_loop h_file fd_at fd l = none := by
  induction l with
  | nil => rfl
  | cons c rest ih =>
    have hc := h c (List.mem_cons_self _ _)
    have hrest := ih (fun x hx => h x (List.mem_cons_of_mem _ hx))
    rw [run_cleanup_file_loop, hrest]
    by_cases h1 : c.handler = h_file
    · have h2 : ¬ fd_at c.data = fd := fun e => hc ⟨h1, e⟩
      simp [h1, h2]
    · simp [h1]

theorem run_cleanup_file_loop_some (h_file : Nat) (fd_at : Nat → Int) (fd : Int)
    (pre : List ngx_pool_cleanup_t) (c : ngx_pool_cleanup_t) (post : List ngx_pool_cleanup_t)
    (hpre : ∀ x ∈ pre, ¬ (x.handler = h_file ∧ fd_at x.data = fd))
    (hc : c.handler = h_file) (hfd : fd_at c.data = fd) :
    run_cleanup_file_loop h_file fd_at fd (pre ++ c :: post)
      = some (pre ++ { c with handler := 0 } :: post, [Event.call h_file c.data]) := by
  induction pre with
  | nil =>
    rw [List.nil_append, run_cleanup_file_loop]
    simp [hc, hfd]
  | cons y pre ih =>
    have hy := hpre y (List.mem_cons_self _ _)
    have hrest := ih (fun x hx => hpre x (List.mem_cons_of_mem _ hx))
    rw [List.cons_append, run_cleanup_file_loop, hrest]
    by_cases h1 : y.handler = h_file
    · have h2 : ¬ fd_at y.data = fd := fun e => hy ⟨h1, e⟩
      simp [h1, h2]
    · simp [h1]

theorem run_in_limits_end (cfg : Platform) (pool : ngx_pool_t) (ops : List pool_op)
    (h : run_in_limits cfg pool ops = true) : cursors_in_limits (run_ops cfg pool ops) = true := by
  induction ops generalizing pool with
  | nil => exact h
  | cons op ops ih =>
    rw [run_in_limits, Bool.and_eq_true] at h
    exact ih (apply_op cfg pool op) h.2

/-- The addresses returned by a sequence of calls made of two parts. -/
theorem run_calls_append_fst (cfg : Platform) (pool : ngx_pool_t) (a b : List small_call) :
    (run_calls cfg pool (a ++ b)).1
      = (run_calls cfg pool a).1 ++ (run_calls cfg (run_calls cfg pool a).2 b).1 := by
  induction a generalizing pool with
  | nil => simp [run_calls]
  | cons c cs ih => simp only [List.cons_append, run_calls, List.append_eq, ih]

/-- The pool after a sequence of calls made of two parts. -/
theorem run_calls_append_snd (cfg : Platform) (pool : ngx_pool_t) (a b : List small_call) :
    (run_calls cfg pool (a ++ b)).2 = (run_calls cfg (run_calls cfg pool a).2 b).2 := by
  induction a generalizing pool with
  | nil => simp [run_calls]
  | cons c cs ih => simp only [List.cons_append, run_calls, List.append_eq, ih]

set_option maxRecDepth 100000 in
/-- The 317 calls `ngx_palloc(1)` of `byte_calls`, in four parts. -/
theorem byte_run_parts :
    byte_run 0 317 = byte_run 0 80 ++ (byte_run 80 80 ++ (byte_run 160 80 ++ byte_run 240 77)) := by
  decide

set_option maxRecDepth 100000 in
/-- The first round of `byte_calls` in the pool `pool_400`, up to the last call. -/
theorem byte_run_first_round :
    (run_calls lp64 pool_400 (byte_run 0 317)).2 = byte_pool_a4 := by
  have h1 : (run_calls lp64 pool_400 (byte_run 0 80)).2 = byte_pool_a1 := by decide
  have h2 : (run_calls lp64 byte_pool_a1 (byte_run 80 80)).2 = byte_pool_a2 := by decide
  have h3 : (run_calls lp64 byte_pool_a2 (byte_run 160 80)).2 = byte_pool_a3 := by decide
  have h4 : (run_calls lp64 byte_pool_a3 (byte_run 240 77)).2 = byte_pool_a4 := by decide
  rw [byte_run_parts, run_calls_append_snd, h1, run_calls_append_snd, h2, run_calls_append_snd,
    h3, h4]

set_option maxRecDepth 100000 in
/-- The second round of `byte_calls` after `ngx_reset_pool`, up to the last call. -/
theorem byte_run_second_round :
    (run_calls lp64 byte_pool_b0 (byte_run 0 317)).2 = byte_pool_b4 := by
  have h1 : (run_calls lp64 byte_pool_b0 (byte_run 0 80)).2 = byte_pool_b1 := by decide
  have h2 : (run_calls lp64 byte_pool_b1 (byte_run 80 80)).2 = byte_pool_b2 := by decide
  have h3 : (run_calls lp64 byte_pool_b2 (byte_run 160 80)).2 = byte_pool_b3 := by decide
  have h4 : (run_calls lp64 byte_pool_b3 (byte_run 240 77)).2 = byte_pool_b4 := by decide
  rw [byte_run_parts, run_calls_append_snd, h1, run_calls_append_snd, h2, run_calls_append_snd,
    h3, h4]

set_option maxRecDepth 100000 in
/-- The second round of `byte_calls` after `reset_as_claimed`, up to the last call: the
addresses are those of the first round. -/
theorem byte_run_second_round_as_claimed :
    (run_calls lp64 byte_pool_c0 (byte_run 0 317)).1
        = (run_calls lp64 pool_400 (byte_run 0 317)).1 ∧
      (run_calls lp64 byte_pool_c0 (byte_run 0 317)).2 = byte_pool_c4 := by
  have a1 : (run_calls lp64 pool_400 (byte_run 0 80)).2 = byte_pool_a1 := by decide
  have a2 : (run_calls lp64 byte_pool_a1 (byte_run 80 80)).2 = byte_pool_a2 := by decide
  have a3 : (run_calls lp64 byte_pool_a2 (byte_run 160 80)).2 = byte_pool_a3 := by decide
  have h1 : (run_calls lp64 byte_pool_c0 (byte_run 0 80)).2 = byte_pool_c1 := by decide
  have h2 : (run_calls lp64 byte_pool_c1 (byte_run 80 80)).2 = byte_pool_c2 := by decide
  have h3 : (run_calls lp64 byte_pool_c2 (byte_run 160 80)).2 = byte_pool_c3 := by decide
  have h4 : (run_calls lp64 byte_pool_c3 (byte_run 240 77)).2 = byte_pool_c4 := by decide
  have r1 : (run_calls lp64 byte_pool_c0 (byte_run 0 80)).1
      = (run_calls lp64 pool_400 (byte_run 0 80)).1 := by decide
  have r2 : (run_calls lp64 byte_pool_c1 (byte_run 80 80)).1
      = (run_calls lp64 byte_pool_a1 (byte_run 80 80)).1 := by decide
  have r3 : (run_calls lp64 byte_pool_c2 (byte_run 160 80)).1
      = (run_calls lp64 byte_pool_a2 (byte_run 160 80)).1 := by decide
  have r4 : (run_calls lp64 byte_pool_c3 (byte_run 240 77)).1
      = (run_calls lp64 byte_pool_a3 (byte_run 240 77)).1 := by decide
  constructor
  · rw [byte_run_parts]
    simp only [run_calls_append_fst, run_calls_append_snd, a1, a2, a3, h1, h2, h3, r1, r2, r3, r4]
  · rw [byte_run_parts, run_calls_append_snd, h1, run_calls_append_snd, h2,
      run_calls_append_snd, h3, h4]

theorem clobber_of_not_touches (cfg : Platform) (ranges : List (Nat × Nat))
    (cell : Nat → cleanup_cell) (a : Nat) (h : touches cfg ranges a = false) :
    clobber cfg ranges cell a = cell a := by
  simp [clobber, h]

theorem store_entry_self (cfg : Platform) (c : Nat) (f : cleanup_cell → cleanup_cell)
    (cell : Nat → cleanup_cell) : store_entry cfg c f cell c = f (cell c) := by
  simp [store_entry]

theorem store_entry_other (cfg : Platform) (c : Nat) (f : cleanup_cell → cleanup_cell)
    (cell : Nat → cleanup_cell) (a : Nat) (hsz : 0 < cfg.sizeof_ngx_pool_cleanup_t)
    (h : ¬ ranges_overlap a cfg.sizeof_ngx_pool_cleanup_t c cfg.sizeof_ngx_pool_cleanup_t) :
    store_entry cfg c f cell a = cell a := by
  have hne : a ≠ c := by
    intro hac
    apply h
    rw [hac]
    unfold ranges_overlap
    omega
  simp [store_entry, hne, h]

/-- A list in memory depends only on the memory at its entries. -/
theorem is_chain_congr (cell cell2 : Nat → cleanup_cell) (l : List ngx_pool_cleanup_t)
    (c : Nat) (h : ∀ e ∈ l, cell2 e.addr = cell e.addr) (hc : is_chain cell c l = true) :
    is_chain cell2 c l = true := by
  induction l generalizing c with
  | nil => simpa [is_chain] using hc
  | cons e rest ih =>
    simp only [is_chain, Bool.and_eq_true, decide_eq_true_eq] at hc ⊢
    obtain ⟨⟨⟨⟨h0, h1⟩, h2⟩, h3⟩, h4⟩ := hc
    have he : cell2 c = cell c := by
      rw [h1]
      exact h e (List.mem_cons_self _ _)
    rw [he]
    refine ⟨⟨⟨⟨h0, h1⟩, h2⟩, h3⟩, ?_⟩
    cases hn : (cell c).next with
    | none => rw [hn] at h4; exact h4
    | some n =>
      rw [hn] at h4
      exact ih n (fun x hx => h x (List.mem_cons_of_mem _ hx)) h4

/-- The loop of `ngx_destroy_pool` over a list in memory ends, with the calls of the loop
over the list. -/
theorem destroy_run_cleanup_mem_chain (cell : Nat → cleanup_cell)
    (l : List ngx_pool_cleanup_t) (c fuel : Nat) (hc : is_chain cell c l = true)
    (hfuel : l.length ≤ fuel) :
    destroy_run_cleanup_mem cell fuel c = some (destroy_run_cleanup l, true) := by
  induction l generalizing c fuel with
  | nil =>
    have h0 : c = 0 := by simpa [is_chain] using hc
    subst h0
    unfold destroy_run_cleanup_mem
    simp [destroy_run_cleanup]
  | cons e rest ih =>
    simp only [is_chain, Bool.and_eq_true, decide_eq_true_eq] at hc
    obtain ⟨⟨⟨⟨h0, h1⟩, h2⟩, h3⟩, h4⟩ := hc
    cases fuel with
    | zero => simp at hfuel
    | succ fuel =>
      have hlen : rest.length ≤ fuel := by
        simp only [List.length_cons] at hfuel
        omega
      cases hn : (cell c).next with
      | none => rw [hn] at h4; simp at h4
      | some n =>
        rw [hn] at h4
        have hrest := ih n fuel h4 hlen
        unfold destroy_run_cleanup_mem
        simp only [h0, if_false, h2, hn, h3]
        rw [destroy_run_cleanup]
        by_cases hh : e.handler = 0
        · simp [hh, hrest]
        · simp [hh, hrest]

theorem touches_header_of_bookkeeping (cfg : Platform) (pool : ngx_pool_t) (a : Nat)
    (h : touches cfg (bookkeeping_ranges cfg pool) a = false) :
    touches cfg (pool_header_range cfg pool) a = false := by
  unfold touches bookkeeping_ranges at h
  unfold touches
  rw [List.any_append, Bool.or_eq_false_iff] at h
  exact h.1

/-- A registration that hands out fresh memory puts its entry, with no handler, in front of
the list in memory. -/
theorem ngx_pool_cleanup_add_mem_chain (cfg : Platform) (s : pool_mem)
    (old : List ngx_pool_cleanup_t) (r : cleanup_reg)
    (hsz : 0 < cfg.sizeof_ngx_pool_cleanup_t)
    (hfresh : add_fresh cfg s (old.map (fun e => e.addr)) r = true)
    (hok : (ngx_pool_cleanup_add_mem cfg s r.size r.pc r.mc r.pd r.md).1 ≠ 0) :
    ∃ d,
      (ngx_pool_cleanup_add_mem cfg s r.size r.pc r.mc r.pd r.md).2.1.head
        = (ngx_pool_cleanup_add_mem cfg s r.size r.pc r.mc r.pd r.md).1 ∧
      (ngx_pool_cleanup_add_mem cfg s r.size r.pc r.mc r.pd r.md).2.1.cell
          (ngx_pool_cleanup_add_mem cfg s r.size r.pc r.mc r.pd r.md).1
        = { handler := some 0, data := some d, next := some s.head } ∧
      (∀ e ∈ old,
        (ngx_pool_cleanup_add_mem cfg s r.size r.pc r.mc r.pd r.md).2.1.cell e.addr
          = s.cell e.addr) ∧
      (∀ e ∈ old, ¬ ranges_overlap e.addr cfg.sizeof_ngx_pool_cleanup_t
        (ngx_pool_cleanup_add_mem cfg s r.size r.pc r.mc r.pd r.md).1
        cfg.sizeof_ngx_pool_cleanup_t) := by
  simp only [add_fresh, Bool.and_eq_true, List.all_eq_true, List.mem_map, List.mem_cons,
    Bool.not_eq_true', decide_eq_false_iff_not, Bool.or_eq_true, decide_eq_true_eq,
    forall_exists_index, and_imp, forall_apply_eq_imp_iff₂, forall_eq_or_imp] at hfresh
  obtain ⟨hF1, ⟨hFc, hF2⟩⟩ := hfresh
  unfold ngx_pool_cleanup_add_mem at hok ⊢
  by_cases hc : (ngx_palloc cfg s.pool cfg.sizeof_ngx_pool_cleanup_t r.pc r.mc).1 = 0
  · simp [hc] at hok
  · by_cases hs : r.size = 0
    · simp only [hc, hs, if_false, ne_eq, not_true_eq_false]
      refine ⟨0, trivial, ?_, ?_, ?_⟩
      · rw [clobber_of_not_touches cfg _ _ _ (touches_header_of_bookkeeping cfg _ _ hFc.1)]
        simp [store_entry_self]
      · intro e he
        have hov := hF1 e he
        rw [clobber_of_not_touches cfg _ _ _ (touches_header_of_bookkeeping cfg _ _ (hF2 e he).1),
          store_entry_other cfg _ _ _ _ hsz hov, store_entry_other cfg _ _ _ _ hsz hov,
          clobber_of_not_touches cfg _ _ _ (hF2 e he).1]
      · intro e he
        exact hF1 e he
    · by_cases hd : (ngx_palloc cfg
          (ngx_palloc cfg s.pool cfg.sizeof_ngx_pool_cleanup_t r.pc r.mc).2.1
          r.size r.pd r.md).1 = 0
      · simp [hc, hs, hd] at hok
      · simp only [hc, hs, hd, if_false, ne_eq, not_false_eq_true, if_true]
        have hFc2 := hFc.2
        simp only [hs, false_or] at hFc2
        refine ⟨(ngx_palloc cfg
          (ngx_palloc cfg s.pool cfg.sizeof_ngx_pool_cleanup_t r.pc r.mc).2.1
          r.size r.pd r.md).1, trivial, ?_, ?_, ?_⟩
        · rw [clobber_of_not_touches cfg _ _ _ (touches_header_of_bookkeeping cfg _ _ hFc2)]
          simp [store_entry_self]
        · intro e he
          have hov := hF1 e he
          have h2 := (hF2 e he).2
          simp only [hs, false_or] at h2
          rw [clobber_of_not_touches cfg _ _ _ (touches_header_of_bookkeeping cfg _ _ h2),
            store_entry_other cfg _ _ _ _ hsz hov, store_entry_other cfg _ _ _ _ hsz hov,
            clobber_of_not_touches cfg _ _ _ h2,
            clobber_of_not_touches cfg _ _ _ (hF2 e he).1]
        · intro e he
          exact hF1 e he

/-- A registration that hands out fresh memory puts its entry, with the handler the caller
assigns, in front of the list in memory. -/
theorem register_chain (cfg : Platform) (s : pool_mem) (old : List ngx_pool_cleanup_t)
    (r : cleanup_reg) (hsz : 0 < cfg.sizeof_ngx_pool_cleanup_t)
    (hchain : is_chain s.cell s.head old = true)
    (hfresh : add_fresh cfg s (old.map (fun e => e.addr)) r = true)
    (hok : (register cfg s r).1 ≠ 0) :
    ∃ d, (register cfg s r).2.head = (register cfg s r).1 ∧
      is_chain (register cfg s r).2.cell (register cfg s r).1
        ({ addr := (register cfg s r).1, handler := r.handler, data := d } :: old) = true := by
  have hfst : (register cfg s r).1
      = (ngx_pool_cleanup_add_mem cfg s r.size r.pc r.mc r.pd r.md).1 := by
    unfold register
    simp only
    split <;> rfl
  rw [hfst] at hok ⊢
  obtain ⟨d, hhead, hcell, hkeep, hfar⟩ :=
    ngx_pool_cleanup_add_mem_chain cfg s old r hsz hfresh hok
  refine ⟨d, ?_, ?_⟩
  · unfold register
    simp only
    split
    · exact hhead
    · exact hhead
  · by_cases hh : r.handler = 0
    · have hsnd : (register cfg s r).2
          = (ngx_pool_cleanup_add_mem cfg s r.size r.pc r.mc r.pd r.md).2.1 := by
        unfold register
        simp [hh]
      rw [hsnd]
      simp only [is_chain, hcell, hh, Bool.and_eq_true, decide_eq_true_eq]
      exact ⟨⟨⟨⟨hok, trivial⟩, trivial⟩, trivial⟩,
        is_chain_congr s.cell _ old s.head hkeep hchain⟩
    · have hsnd : (register cfg s r).2.cell
          = store_entry cfg (ngx_pool_cleanup_add_mem cfg s r.size r.pc r.mc r.pd r.md).1
              (fun e => { e with handler := some r.handler })
              (ngx_pool_cleanup_add_mem cfg s r.size r.pc r.mc r.pd r.md).2.1.cell := by
        unfold register
        simp [hh, hok]
      rw [hsnd]
      simp only [is_chain, store_entry_self, hcell, Bool.and_eq_true, decide_eq_true_eq]
      refine ⟨⟨⟨⟨hok, trivial⟩, trivial⟩, trivial⟩, ?_⟩
      apply is_chain_congr s.cell _ old s.head _ hchain
      intro e he
      rw [store_entry_other cfg _ _ _ _ hsz (hfar e he)]
      exact hkeep e he

/-- After registrations that hand out fresh memory the list in memory is the new entries,
the latest first, and then the entries that were there. -/
theorem run_regs_chain (cfg : Platform) (s : pool_mem) (old : List ngx_pool_cleanup_t)
    (regs : List cleanup_reg) (hsz : 0 < cfg.sizeof_ngx_pool_cleanup_t)
    (hchain : is_chain s.cell s.head old = true)
    (hfresh : regs_fresh cfg s (old.map (fun e => e.addr)) regs = true)
    (hok : ∀ c ∈ (run_regs cfg s regs).1, c ≠ 0) :
    ∃ new : List ngx_pool_cleanup_t,
      new.map (fun e => e.addr) = (run_regs cfg s regs).1 ∧
      new.map (fun e => e.handler) = regs.map (fun r => r.handler) ∧
      is_chain (run_regs cfg s regs).2.cell (run_regs cfg s regs).2.head
        (new.reverse ++ old) = true := by
  induction regs generalizing s old with
  | nil => exact ⟨[], rfl, rfl, by simpa [run_regs] using hchain⟩
  | cons r rs ih =>
    simp only [run_regs] at hok ⊢
    simp only [regs_fresh, Bool.and_eq_true] at hfresh
    have hne : (register cfg s r).1 ≠ 0 := hok _ (List.mem_cons_self _ _)
    obtain ⟨d, hhead, hch⟩ := register_chain cfg s old r hsz hchain hfresh.1 hne
    have hch2 : is_chain (register cfg s r).2.cell (register cfg s r).2.head
        ({ addr := (register cfg s r).1, handler := r.handler, data := d } :: old) = true := by
      rw [hhead]
      exact hch
    obtain ⟨new, k1, k2, k3⟩ := ih (register cfg s r).2
      ({ addr := (register cfg s r).1, handler := r.handler, data := d } :: old) hch2
      (by simpa using hfresh.2) (fun c hc => hok c (List.mem_cons_of_mem _ hc))
    refine ⟨{ addr := (register cfg s r).1, handler := r.handler, data := d } :: new,
      ?_, ?_, ?_⟩
    · simp [k1]
    · simp [k2]
    · simpa using k3

/-- C1. The claim is that the byte ranges of successful small allocations never overlap.  On
LP64, in the pool made by `ngx_create_pool(100)` at 4096 whose second block the platform
allocator places at 4208 (disjoint from the first), the calls `ngx_pnalloc(17)`,
`ngx_pnalloc(4)`, `ngx_palloc(20)`, `ngx_palloc(20)` all have size at most `pool->max`, return
4176, 4240, 4200 and 4224, and the ranges of the second and the fourth share bytes: once the
aligned cursor of the first region passed its limit, the test `(size_t) (end - m) >= size`
wraps around and the region serves bytes beyond its block. -/
theorem small_allocations_overlap_after_wrap :
    ngx_create_pool lp64 100 4096 = some pool_100 ∧
    ¬ ranges_overlap 4096 100 4208 100 ∧
    (run_calls lp64 pool_100
        [⟨17, false, 0, 0⟩, ⟨4, false, 0, 4208⟩, ⟨20, true, 0, 0⟩, ⟨20, true, 0, 0⟩]).1
      = [4176, 4240, 4200, 4224] ∧
    17 ≤ pool_100.max ∧ 4 ≤ pool_100.max ∧ 20 ≤ pool_100.max ∧
    ranges_overlap 4240 4 4224 20 := by
  decide

/-- C2. The claim is that every region keeps base ≤ cursor ≤ limit and that every address of a
small allocation lies in `[base, limit)` of a region.  On LP64, after `ngx_create_pool(100)` at
4096, `ngx_pnalloc(17)` and `ngx_palloc(8)`, the second call returns 4200, which is in no
region (the only one is `[4096, 4196)`), and leaves the cursor at 4208, above the limit 4196. -/
theorem cursor_passes_limit_after_wrap :
    ngx_create_pool lp64 100 4096 = some pool_100 ∧
    run_calls lp64 pool_100 [⟨17, false, 0, 0⟩, ⟨8, true, 0, 0⟩]
      = ([4176, 4200],
         { d := [{ addr := 4096, last := 4208, end_ := 4196, failed := 0 }]
           max := 20, current := 0, large := [], cleanup := [] }) ∧
    ¬ (4208 ≤ 4196) ∧ ¬ (4096 ≤ 4200 ∧ 4200 < 4196) := by
  decide

/-- C3. The claim is that `ngx_palloc_small` serves a request from the first region, from
`current` on, whose remaining space covers the size.  In `pool_100_grown` (reached on LP64 from
`ngx_create_pool(100)` by `ngx_pnalloc(17)` and `ngx_pnalloc(4)`) the first region has no space
for an aligned request of 8 bytes, its aligned cursor 4200 being above its limit 4196, and the
second region has; the code serves the request from the first region all the same: it returns
4200, moves the first region's cursor to 4208 and leaves the second region alone. -/
theorem ngx_palloc_small_serves_from_exhausted_region :
    ngx_create_pool lp64 100 4096 = some pool_100 ∧
    run_calls lp64 pool_100 [⟨17, false, 0, 0⟩, ⟨4, false, 0, 4208⟩]
      = ([4176, 4240], pool_100_grown) ∧
    ¬ spec_region_covers lp64 ⟨4096, 4193, 4196, 0⟩ 8 1 ∧
    spec_region_covers lp64 ⟨4208, 4244, 4308, 0⟩ 8 1 ∧
    request_cursor lp64 ⟨4208, 4244, 4308, 0⟩ 1 = 4248 ∧
    ngx_palloc_small lp64 pool_100_grown 8 1 0
      = (4200,
         { d := [{ addr := 4096, last := 4208, end_ := 4196, failed := 0 },
                 { addr := 4208, last := 4244, end_ := 4308, failed := 0 }]
           max := 20, current := 0, large := [], cleanup := [] }) := by
  decide

/-- C4. A successful `ngx_palloc_block` (the platform allocator answered `m`, not `NULL`)
returns the aligned address just past the new block's `ngx_pool_data_t` header and appends
exactly one region after the last region of the whole chain: its base is `m`, its total size
is that of the first region (`d.end` minus the pool's own address) and its cursor is the
returned address plus `size`.  The base, the cursor and the limit of every region that existed
before are unchanged.  This is what `ngx_palloc_small` does when its loop runs off the chain,
no region from `current` on having passed the test for space. -/
theorem ngx_palloc_block_appends_one_region (cfg : Platform) (pool : ngx_pool_t)
    (size align m : Nat) (hd : ngx_pool_data_t) (tl : List ngx_pool_data_t) (hchain : pool.d = hd :: tl)
    (hsize : hd.addr ≤ hd.end_) (hword : hd.end_ < 2 ^ 64) (hm : m ≠ 0) :
    (ngx_palloc_block cfg pool size m).1
      = ngx_align_ptr (m + cfg.sizeof_ngx_pool_data_t) cfg.NGX_ALIGNMENT ∧
    (ngx_palloc_block cfg pool size m).2.d.length = pool.d.length + 1 ∧
    (ngx_palloc_block cfg pool size m).2.d.drop pool.d.length
      = [{ addr := m
           last := ngx_align_ptr (m + cfg.sizeof_ngx_pool_data_t) cfg.NGX_ALIGNMENT + size
           end_ := m + (hd.end_ - hd.addr)
           failed := 0 }] ∧
    ((ngx_palloc_block cfg pool size m).2.d.take pool.d.length).map region_geom
      = pool.d.map region_geom ∧
    (palloc_small_loop cfg size align (pool.d.drop pool.current) = none →
      ngx_palloc_small cfg pool size align m = ngx_palloc_block cfg pool size m) := by
  have hlen : ∀ (rs : List ngx_pool_data_t) (i cur : Nat),
      (palloc_block_loop rs i cur).1.length = rs.length := by
    intro rs i cur
    have h := congrArg List.length (palloc_block_loop_geom rs i cur)
    simpa using h
  have hold : (pool.d.take pool.current
        ++ (palloc_block_loop (pool.d.drop pool.current) pool.current pool.current).1).length
      = pool.d.length := by
    rw [List.length_append, hlen, ← List.length_append, List.take_append_drop]
  have hgeom : (pool.d.take pool.current
        ++ (palloc_block_loop (pool.d.drop pool.current) pool.current pool.current).1).map
          region_geom = pool.d.map region_geom := by
    rw [List.map_append, palloc_block_loop_geom, ← List.map_append, List.take_append_drop]
  have hps : size_t_sub hd.end_ hd.addr = hd.end_ - hd.addr := size_t_sub_of_le _ _ hsize hword
  have hres : ngx_palloc_block cfg pool size m
      = (ngx_align_ptr (m + cfg.sizeof_ngx_pool_data_t) cfg.NGX_ALIGNMENT,
         { pool with
            d := pool.d.take pool.current
              ++ (palloc_block_loop (pool.d.drop pool.current) pool.current pool.current).1
              ++ [{ addr := m
                    last := ngx_align_ptr (m + cfg.sizeof_ngx_pool_data_t) cfg.NGX_ALIGNMENT
                      + size
                    end_ := m + (hd.end_ - hd.addr)
                    failed := 0 }]
            current :=
              (palloc_block_loop (pool.d.drop pool.current) pool.current pool.current).2 }) := by
    unfold ngx_palloc_block
    rw [hchain] at *
    simp only [hm, if_false, hps]
  have hsmall : palloc_small_loop cfg size align (pool.d.drop pool.current) = none →
      ngx_palloc_small cfg pool size align m = ngx_palloc_block cfg pool size m := by
    intro hnone
    unfold ngx_palloc_small
    rw [hnone]
  rw [hres] at hsmall ⊢
  refine ⟨rfl, ?_, ?_, ?_, hsmall⟩
  · simp only [List.length_append, List.length_singleton]
    rw [← List.length_append, hold]
  · rw [← hold, List.drop_left]
  · rw [← hold, List.take_left]
    exact hgeom

/-- Witness of C4: the pool made by `ngx_create_pool(128)` grows by a block at 8192. -/
theorem ngx_palloc_block_appends_one_region_witness :
    (pool_128.d = [⟨4096, 4176, 4224, 0⟩] ∧ (4096 : Nat) ≤ 4224 ∧ (4224 : Nat) < 2 ^ 64
      ∧ (8192 : Nat) ≠ 0) ∧
    ((ngx_palloc_block lp64 pool_128 8 8192).1
      = ngx_align_ptr (8192 + lp64.sizeof_ngx_pool_data_t) lp64.NGX_ALIGNMENT ∧
    (ngx_palloc_block lp64 pool_128 8 8192).2.d.length = pool_128.d.length + 1 ∧
    (ngx_palloc_block lp64 pool_128 8 8192).2.d.drop pool_128.d.length
      = [{ addr := 8192
           last := ngx_align_ptr (8192 + lp64.sizeof_ngx_pool_data_t) lp64.NGX_ALIGNMENT + 8
           end_ := 8192 + (4224 - 4096)
           failed := 0 }] ∧
    ((ngx_palloc_block lp64 pool_128 8 8192).2.d.take pool_128.d.length).map region_geom
      = pool_128.d.map region_geom ∧
    (palloc_small_loop lp64 8 1 (pool_128_full.d.drop pool_128_full.current) = none ∧
      ngx_palloc_small lp64 pool_128_full 8 1 8192 = ngx_palloc_block lp64 pool_128_full 8 8192))
    :=
  ⟨by decide,
   (ngx_palloc_block_appends_one_region lp64 pool_128 8 1 8192 ⟨4096, 4176, 4224, 0⟩ [] rfl
     (by decide) (by decide) (by decide)).1,
   (ngx_palloc_block_appends_one_region lp64 pool_128 8 1 8192 ⟨4096, 4176, 4224, 0⟩ [] rfl
     (by decide) (by decide) (by decide)).2.1,
   (ngx_palloc_block_appends_one_region lp64 pool_128 8 1 8192 ⟨4096, 4176, 4224, 0⟩ [] rfl
     (by decide) (by decide) (by decide)).2.2.1,
   (ngx_palloc_block_appends_one_region lp64 pool_128 8 1 8192 ⟨4096, 4176, 4224, 0⟩ [] rfl
     (by decide) (by decide) (by decide)).2.2.2.1,
   by decide,
   (ngx_palloc_block_appends_one_region lp64 pool_128_full 8 1 8192 ⟨4096, 4224, 4224, 0⟩ []
     rfl (by decide) (by decide) (by decide)).2.2.2.2 (by decide)⟩

/-- C7. `ngx_pfree` returns `NGX_OK` exactly when some slot of the large list holds `p`.  In
that case the first such slot `l` (no slot of `pre`, before it, holds `p`) is vacated and the
pool is otherwise the same: the other slots, their order and their number are unchanged, and
`ngx_free(p)` is the one call made.  When no slot holds `p` it returns `NGX_DECLINED`, the pool
is unchanged and nothing is freed.  Hence, for a non-null `p` that exactly one slot holds, the
first release returns `NGX_OK` and the second `NGX_DECLINED`. -/
theorem ngx_pfree_vacates_first_match (pool : ngx_pool_t) (p : Nat)
    (pre : List ngx_pool_large_t) (l : ngx_pool_large_t) (post : List ngx_pool_large_t) :
    ((ngx_pfree pool p).1 = NGX_OK ↔ p ∈ pool.large.map (fun x => x.alloc)) ∧
    (pool.large = pre ++ l :: post → (∀ x ∈ pre, x.alloc ≠ p) → l.alloc = p →
      ngx_pfree pool p
        = (NGX_OK, { pool with large := pre ++ { l with alloc := 0 } :: post },
           [Event.free p])) ∧
    (p ∉ pool.large.map (fun x => x.alloc) → ngx_pfree pool p = (NGX_DECLINED, pool, [])) ∧
    (p ≠ 0 → (pool.large.map (fun x => x.alloc)).count p = 1 →
      (ngx_pfree pool p).1 = NGX_OK ∧ (ngx_pfree (ngx_pfree pool p).2.1 p).1 = NGX_DECLINED) := by
  have hno : p ∉ pool.large.map (fun x => x.alloc) →
      ngx_pfree pool p = (NGX_DECLINED, pool, []) := by
    intro h
    apply ngx_pfree_of_no_match
    intro x hx e
    exact h (List.mem_map.mpr ⟨x, hx, e⟩)
  have hyes : p ∈ pool.large.map (fun x => x.alloc) → (ngx_pfree pool p).1 = NGX_OK := by
    intro h
    obtain ⟨pre1, l1, post1, e, hpre1, hl1⟩ := first_match_split p pool.large h
    rw [ngx_pfree_of_match pool p pre1 l1 post1 e hpre1 hl1]
  refine ⟨⟨?_, hyes⟩, ?_, hno, ?_⟩
  · intro hrc
    by_contra hmem
    rw [hno hmem] at hrc
    have hne : NGX_DECLINED ≠ NGX_OK := by decide
    exact hne hrc
  · intro hlist hpre hl
    exact ngx_pfree_of_match pool p pre l post hlist hpre hl
  · intro hp hcount
    have hmem : p ∈ pool.large.map (fun x => x.alloc) := by
      apply List.count_pos_iff.mp
      omega
    obtain ⟨pre1, l1, post1, e, hpre1, hl1⟩ := first_match_split p pool.large hmem
    refine ⟨hyes hmem, ?_⟩
    rw [ngx_pfree_of_match pool p pre1 l1 post1 e hpre1 hl1]
    have hpost : ∀ x ∈ post1, x.alloc ≠ p := by
      intro x hx hxp
      rw [e] at hcount
      simp only [List.map_append, List.map_cons, List.count_append, List.count_cons, hl1,
        beq_self_eq_true, if_true] at hcount
      have hpos : 0 < (post1.map (fun x => x.alloc)).count p :=
        List.count_pos_iff.mpr (List.mem_map.mpr ⟨x, hx, hxp⟩)
      omega
    rw [ngx_pfree_of_no_match]
    intro x hx
    simp only [List.mem_append, List.mem_cons] at hx
    rcases hx with hx | hx | hx
    · exact hpre1 x hx
    · rw [hx]
      exact fun h0 => hp h0.symm
    · exact hpost x hx

/-- Witness of C7: the pool with the slots of 20000 and 10000 releases 20000 twice. -/
theorem ngx_pfree_vacates_first_match_witness :
    ngx_pfree pool_two_large 20000
      = (NGX_OK,
         { pool_two_large with
            large := [] ++ { (⟨4192, 20000⟩ : ngx_pool_large_t) with alloc := 0 }
              :: [⟨4176, 10000⟩] },
         [Event.free 20000]) ∧
    ngx_pfree pool_two_large 30000 = (NGX_DECLINED, pool_two_large, []) ∧
    ((ngx_pfree pool_two_large 20000).1 = NGX_OK ∧
      (ngx_pfree (ngx_pfree pool_two_large 20000).2.1 20000).1 = NGX_DECLINED) :=
  ⟨(ngx_pfree_vacates_first_match pool_two_large 20000 [] ⟨4192, 20000⟩ [⟨4176, 10000⟩]).2.1
      rfl (by decide) rfl,
   (ngx_pfree_vacates_first_match pool_two_large 30000 [] ⟨4192, 20000⟩ [⟨4176, 10000⟩]).2.2.1
      (by decide),
   (ngx_pfree_vacates_first_match pool_two_large 20000 [] ⟨4192, 20000⟩ [⟨4176, 10000⟩]).2.2.2
      (by decide) (by decide)⟩

/-- C8. The claim is that reset rewinds each region's cursor to where that region's cursor
started.  On LP64 the pool made by `ngx_create_pool(128)` at 4096 serves `ngx_palloc(48)` at
4176 and grows for `ngx_palloc(8)` by a block at 8192, whose first allocation is at 8224, the
aligned address past its `ngx_pool_data_t` header.  After `ngx_reset_pool` the cursor of that
second region is 8272, the address past a whole `ngx_pool_t`: the 48 bytes from 8224 on are
not handed out again.  The first region's cursor, the failure counts and `current` are reset
as claimed. -/
theorem ngx_reset_pool_skips_start_of_grown_region :
    ngx_create_pool lp64 128 4096 = some pool_128 ∧
    run_calls lp64 pool_128 [⟨48, true, 0, 0⟩, ⟨8, true, 0, 8192⟩]
      = ([4176, 8224], pool_128_grown) ∧
    ngx_align_ptr (8192 + lp64.sizeof_ngx_pool_data_t) lp64.NGX_ALIGNMENT = 8224 ∧
    (ngx_reset_pool lp64 pool_128_grown).1
      = { d := [{ addr := 4096, last := 4176, end_ := 4224, failed := 0 },
                { addr := 8192, last := 8272, end_ := 8320, failed := 0 }]
          max := 48, current := 0, large := [], cleanup := [] } ∧
    (8272 : Nat) ≠ 8224 := by
  decide

set_option maxRecDepth 100000 in
/-- C9, as the claim states it, fails.  On LP64 the pool made by `ngx_create_pool(400)` at
4096 has 320 bytes past its header.  The 317 calls `ngx_palloc(1)` take eight bytes each but
the last in a region, so that seven regions are added, and the seventh addition moves
`current` to the second region; the call `ngx_pnalloc(0)` that follows is served at the
cursor 29065 of the second region.  After `ngx_reset_pool` the same calls end with
`ngx_pnalloc(0)` served at the cursor 4489 of the first region, `current` being the head
again.  The sizes total 317.  The difference does not come from the cursors that
`ngx_reset_pool` gives the added regions: after `reset_as_claimed` the 317 first calls
return the addresses of the first round and the last call returns 4489 all the same. -/
theorem reset_replay_differs_after_current_moves :
    ngx_create_pool lp64 400 4096 = some pool_400 ∧
    (byte_calls.map (fun c => c.size)).sum = 317 ∧ 317 < 400 - lp64.sizeof_ngx_pool_t ∧
    byte_calls.all (fun c => decide (c.size ≤ pool_400.max)) = true ∧
    (run_calls lp64 pool_400 byte_calls).2.current = 1 ∧
    (run_calls lp64 pool_400 byte_calls).1.getLast? = some 29065 ∧
    (run_calls lp64 (ngx_reset_pool lp64 (run_calls lp64 pool_400 byte_calls).2).1
        byte_calls).1.getLast? = some 4489 ∧
    (run_calls lp64 (reset_as_claimed lp64 (run_calls lp64 pool_400 byte_calls).2)
        byte_calls).1 = (run_calls lp64 pool_400 byte_calls).1.dropLast ++ [4489] := by
  have hlast : ∀ pool : ngx_pool_t, run_calls lp64 pool byte_calls
      = ((run_calls lp64 pool (byte_run 0 317)).1
          ++ (run_calls lp64 (run_calls lp64 pool (byte_run 0 317)).2 [⟨0, false, 0, 0⟩]).1,
         (run_calls lp64 (run_calls lp64 pool (byte_run 0 317)).2 [⟨0, false, 0, 0⟩]).2) := by
    intro pool
    rw [byte_calls, ← run_calls_append_fst, ← run_calls_append_snd]
  have e1 : run_calls lp64 byte_pool_a4 [⟨0, false, 0, 0⟩] = ([29065], byte_pool_a4) := by decide
  have e2 : (ngx_reset_pool lp64 byte_pool_a4).1 = byte_pool_b0 := by decide
  have e3 : run_calls lp64 byte_pool_b4 [⟨0, false, 0, 0⟩] = ([4489], byte_pool_b4) := by decide
  have e4 : reset_as_claimed lp64 byte_pool_a4 = byte_pool_c0 := by decide
  have e5 : run_calls lp64 byte_pool_c4 [⟨0, false, 0, 0⟩] = ([4489], byte_pool_c4) := by decide
  have h1 : run_calls lp64 pool_400 byte_calls
      = ((run_calls lp64 pool_400 (byte_run 0 317)).1 ++ [29065], byte_pool_a4) := by
    rw [hlast, byte_run_first_round, e1]
  have h2 : run_calls lp64 byte_pool_b0 byte_calls
      = ((run_calls lp64 byte_pool_b0 (byte_run 0 317)).1 ++ [4489], byte_pool_b4) := by
    rw [hlast, byte_run_second_round, e3]
  have h3 : run_calls lp64 byte_pool_c0 byte_calls
      = ((run_calls lp64 pool_400 (byte_run 0 317)).1 ++ [4489], byte_pool_c4) := by
    rw [hlast, byte_run_second_round_as_claimed.2, byte_run_second_round_as_claimed.1, e5]
  rw [h1]
  simp only []
  rw [e2, e4, h2, h3]
  refine ⟨by decide, ?_, by decide, ?_, by decide, ?_, ?_, ?_⟩
  · decide
  · decide
  · simp
  · simp
  · simp

/-- C9, amended.  Take a freshly created pool of region size `R` and a sequence of small
allocations (each size at most `pool->max`) that the first round serves without growing the
chain, which is so in particular when all of them are unaligned (`ngx_pnalloc`) and the sizes
total less than `R` minus the size of the pool header.  Then performing the sequence, calling
`ngx_reset_pool` and performing the sequence again returns in the second round exactly the
addresses of the first round, and the number of regions after the second round is the number
after the first. -/
theorem reset_replays_allocations_without_growth (cfg : Platform) (R p : Nat)
    (pool : ngx_pool_t) (calls : List small_call)
    (hcreate : ngx_create_pool cfg R p = some pool)
    (hsmall : ∀ c ∈ calls, c.size ≤ pool.max)
    (hfit : (run_calls cfg pool calls).2.d.length = 1 ∨
      ((∀ c ∈ calls, c.align = false) ∧ cfg.sizeof_ngx_pool_t ≤ R ∧ p + R < 2 ^ 64 ∧
        (calls.map (fun c => c.size)).sum < R - cfg.sizeof_ngx_pool_t)) :
    (run_calls cfg (ngx_reset_pool cfg (run_calls cfg pool calls).2).1 calls).1
      = (run_calls cfg pool calls).1 ∧
    (run_calls cfg (ngx_reset_pool cfg (run_calls cfg pool calls).2).1 calls).2.d.length
      = (run_calls cfg pool calls).2.d.length := by
  have hone : (run_calls cfg pool calls).2.d.length = 1 := by
    rcases hfit with h | ⟨hun, hR, hword, hsum⟩
    · exact h
    · have hc := hcreate
      unfold ngx_create_pool at hc
      by_cases hp : p = 0
      · simp [hp] at hc
      · simp only [hp, if_false, Option.some.injEq] at hc
        exact run_calls_unaligned_one_region cfg calls pool
          { addr := p, last := p + cfg.sizeof_ngx_pool_t, end_ := p + R, failed := 0 }
          (by rw [← hc]) (by rw [← hc]) hun hsmall (by simp only; omega) hword
  rw [reset_of_one_region cfg R p pool calls hcreate hone]
  exact ⟨rfl, rfl⟩

/-- Witness of the amended C9: three unaligned allocations in a pool of 128 bytes. -/
theorem reset_replays_allocations_without_growth_witness :
    (ngx_create_pool lp64 128 4096 = some pool_128 ∧
      ((17 + 3 + 5 : Nat) < 128 - lp64.sizeof_ngx_pool_t)) ∧
    (run_calls lp64 pool_128 [⟨17, false, 0, 0⟩, ⟨3, false, 0, 0⟩, ⟨5, false, 0, 0⟩]).1
      = [4176, 4193, 4196] ∧
    (run_calls lp64
        (ngx_reset_pool lp64
          (run_calls lp64 pool_128
            [⟨17, false, 0, 0⟩, ⟨3, false, 0, 0⟩, ⟨5, false, 0, 0⟩]).2).1
        [⟨17, false, 0, 0⟩, ⟨3, false, 0, 0⟩, ⟨5, false, 0, 0⟩]).1
      = (run_calls lp64 pool_128
          [⟨17, false, 0, 0⟩, ⟨3, false, 0, 0⟩, ⟨5, false, 0, 0⟩]).1 :=
  ⟨by decide, by decide,
   (reset_replays_allocations_without_growth lp64 128 4096 pool_128
      [⟨17, false, 0, 0⟩, ⟨3, false, 0, 0⟩, ⟨5, false, 0, 0⟩] (by decide) (by decide)
      (Or.inr (by decide))).1⟩

/-- C16. In a pool whose cursors are addresses (none is `NULL`), on a platform whose alignment
is positive, let the data allocation succeed (`p` is not `NULL`) and the allocation of the
tracking slot by `ngx_palloc_small` fail.  Then `ngx_palloc_large`, when its scan of the large
list found no vacant slot and so asked for a new one, and `ngx_pmemalign` both return `NULL`,
call `ngx_free(p)` once and nothing else, and leave the whole pool as it was: the large list,
the chain of regions with its cursors and failure counts, and `current`. -/
theorem slot_failure_releases_data_and_keeps_pool (cfg : Platform) (pool : ngx_pool_t)
    (size alignment p m : Nat) (hal : 0 < cfg.NGX_ALIGNMENT)
    (hcur : ∀ r ∈ pool.d, r.last ≠ 0) (hp : p ≠ 0)
    (hslot : (ngx_palloc_small cfg pool cfg.sizeof_ngx_pool_large_t 1 m).1 = 0) :
    (palloc_large_loop p pool.large 0 = none →
      ngx_palloc_large cfg pool size p m = (0, pool, [Event.free p])) ∧
    ngx_pmemalign cfg pool size alignment p m = (0, pool, [Event.free p]) := by
  have hnull := ngx_palloc_small_null cfg pool cfg.sizeof_ngx_pool_large_t 1 m hal hcur hslot
  constructor
  · intro hscan
    unfold ngx_palloc_large
    simp only [hp, if_false, hscan, hnull, if_true]
  · unfold ngx_pmemalign
    simp only [hp, if_false, hnull, if_true]

/-- Witness of C16: the first region of `pool_128_full` has no room for a slot and the
platform allocator answers `NULL` for a new block. -/
theorem slot_failure_releases_data_and_keeps_pool_witness :
    ((0 < lp64.NGX_ALIGNMENT) ∧ (∀ r ∈ pool_128_full.d, r.last ≠ 0) ∧ (20000 : Nat) ≠ 0 ∧
      (ngx_palloc_small lp64 pool_128_full lp64.sizeof_ngx_pool_large_t 1 0).1 = 0) ∧
    ngx_palloc_large lp64 pool_128_full 5000 20000 0 = (0, pool_128_full, [Event.free 20000]) ∧
    ngx_pmemalign lp64 pool_128_full 5000 64 20000 0
      = (0, pool_128_full, [Event.free 20000]) :=
  ⟨by decide,
   (slot_failure_releases_data_and_keeps_pool lp64 pool_128_full 5000 64 20000 0
      (by decide) (by decide) (by decide) (by decide)).1 (by decide),
   (slot_failure_releases_data_and_keeps_pool lp64 pool_128_full 5000 64 20000 0
      (by decide) (by decide) (by decide) (by decide)).2⟩

/-- C18, as the claim states it, fails.  On LP64 `ngx_create_pool(40)` with a block at 4096
succeeds and sets `max` to `NGX_MAX_ALLOC_FROM_POOL`, 4095: the subtraction
`size - sizeof(ngx_pool_t)` is unsigned and wraps around below the header size of 80.  The
smaller of `40 - 80` and 4095 is negative in the integers (and 0 if the difference is cut off
at 0), not 4095. -/
theorem ngx_create_pool_ceiling_below_header_size :
    (ngx_create_pool lp64 40 4096).map (fun pool => pool.max) = some 4095 ∧
    spec_small_ceiling lp64 40 = -40 ∧
    min (40 - lp64.sizeof_ngx_pool_t) lp64.NGX_MAX_ALLOC_FROM_POOL = 0 := by
  decide

/-- C18, amended.  For every `total_size` that is at least `sizeof(ngx_pool_t)` (and is a
`size_t` value), a successful `ngx_create_pool(total_size)` yields a pool whose `max` is the
smaller of `total_size - sizeof(ngx_pool_t)` and `NGX_MAX_ALLOC_FROM_POOL`, whose chain is the
one region at the address `p` of the block, which `current` indexes, and whose large and
cleanup lists are empty; `max` keeps that value after any sequence of `ngx_palloc`,
`ngx_pnalloc`, `ngx_pcalloc`, `ngx_pmemalign`, `ngx_pfree`, `ngx_pool_cleanup_add` and
`ngx_reset_pool` during which no region's cursor passes its limit.  A run in which a cursor
passes its limit, through the test for space of `ngx_palloc_small`, is served memory outside
the regions, the pool header included, and is left out here. -/
theorem ngx_create_pool_ceiling_is_fixed (cfg : Platform) (total_size p : Nat)
    (pool : ngx_pool_t) (ops : List pool_op)
    (hcreate : ngx_create_pool cfg total_size p = some pool)
    (hsize : cfg.sizeof_ngx_pool_t ≤ total_size) (hword : total_size < 2 ^ 64)
    (hlim : run_in_limits cfg pool ops = true) :
    (pool.max : Int) = spec_small_ceiling cfg total_size ∧
    pool.max = min (total_size - cfg.sizeof_ngx_pool_t) cfg.NGX_MAX_ALLOC_FROM_POOL ∧
    pool.current = 0 ∧ pool.d.map (fun r => r.addr) = [p] ∧
    pool.large = [] ∧ pool.cleanup = [] ∧
    (run_ops cfg pool ops).max = pool.max ∧
    cursors_in_limits (run_ops cfg pool ops) = true := by
  have hrun := (run_ops_step cfg pool ops).1
  have hend := run_in_limits_end cfg pool ops hlim
  unfold ngx_create_pool at hcreate
  by_cases hp : p = 0
  · simp [hp] at hcreate
  · simp only [hp, if_false, Option.some.injEq] at hcreate
    have hsub := size_t_sub_of_le total_size cfg.sizeof_ngx_pool_t hsize hword
    rw [hsub] at hcreate
    subst hcreate
    refine ⟨?_, ?_, rfl, rfl, rfl, rfl, hrun, hend⟩
    · unfold spec_small_ceiling
      simp only
      split <;> omega
    · simp only
      split <;> omega

/-- Witness of the amended C18: a pool of 1024 bytes at 4096 on LP64, then a large
allocation, a small one, the registration of a cleanup entry and a reset. -/
theorem ngx_create_pool_ceiling_is_fixed_witness :
    (ngx_create_pool lp64 1024 4096 = some pool_1024 ∧ lp64.sizeof_ngx_pool_t ≤ 1024 ∧
      (1024 : Nat) < 2 ^ 64 ∧
      run_in_limits lp64 pool_1024
        [pool_op.palloc 5000 20000 0, pool_op.pnalloc 17 0 0,
         pool_op.cleanup_add 8 0 0 0 0, pool_op.reset] = true) ∧
    pool_1024.max = min (1024 - lp64.sizeof_ngx_pool_t) lp64.NGX_MAX_ALLOC_FROM_POOL ∧
    (run_ops lp64 pool_1024
        [pool_op.palloc 5000 20000 0, pool_op.pnalloc 17 0 0,
         pool_op.cleanup_add 8 0 0 0 0, pool_op.reset]).max
      = pool_1024.max :=
  ⟨by decide,
   (ngx_create_pool_ceiling_is_fixed lp64 1024 4096 pool_1024
      [pool_op.palloc 5000 20000 0, pool_op.pnalloc 17 0 0,
       pool_op.cleanup_add 8 0 0 0 0, pool_op.reset]
      (by decide) (by decide) (by decide) (by decide)).2.1,
   (ngx_create_pool_ceiling_is_fixed lp64 1024 4096 pool_1024
      [pool_op.palloc 5000 20000 0, pool_op.pnalloc 17 0 0,
       pool_op.cleanup_add 8 0 0 0 0, pool_op.reset]
      (by decide) (by decide) (by decide) (by decide)).2.2.2.2.2.2.1⟩

/-- C19. Let the chain be `before ++ visited ++ [tail]` with `current` the first region of
`visited ++ [tail]`, so that the walk of `ngx_palloc_block` visits the regions of `visited`,
from `current` up to but excluding the old tail.  After a successful `ngx_palloc_block` every
region of `visited` has one more failure counted and is otherwise the same, the regions of
`before` and the old tail are the same, and the new region has failure count 0.  When no
visited region had failed more than 4 times, `current` is unchanged; when `r` is the last
visited region that had failed 5 times or more before this miss, `current` is the index of
the successor of `r`. -/
theorem ngx_palloc_block_counts_failures (cfg : Platform) (pool : ngx_pool_t) (size m : Nat)
    (before visited : List ngx_pool_data_t) (tail : ngx_pool_data_t)
    (v1 : List ngx_pool_data_t) (r : ngx_pool_data_t) (v2 : List ngx_pool_data_t)
    (hchain : pool.d = before ++ visited ++ [tail]) (hcur : pool.current = before.length)
    (hm : m ≠ 0) :
    (ngx_palloc_block cfg pool size m).2.d.take pool.d.length
      = before ++ visited.map count_failure ++ [tail] ∧
    ((ngx_palloc_block cfg pool size m).2.d.drop pool.d.length).map (fun x => x.failed) = [0] ∧
    ((∀ x ∈ visited, x.failed ≤ 4) →
      (ngx_palloc_block cfg pool size m).2.current = pool.current) ∧
    (visited = v1 ++ r :: v2 → 5 ≤ r.failed → (∀ x ∈ v2, x.failed ≤ 4) →
      (ngx_palloc_block cfg pool size m).2.current = before.length + v1.length + 1) := by
  have htake : pool.d.take pool.current = before := by
    rw [hchain, hcur, List.append_assoc, List.take_left]
  have hdrop : pool.d.drop pool.current = visited ++ [tail] := by
    rw [hchain, hcur, List.append_assoc, List.drop_left]
  have hlen : pool.d.length = (before ++ visited.map count_failure ++ [tail]).length := by
    rw [hchain]
    simp
  obtain ⟨hd, tl, hcons⟩ : ∃ hd tl, pool.d = hd :: tl := by
    cases hpd : pool.d with
    | nil =>
      rw [hpd] at hchain
      simp at hchain
    | cons hd tl => exact ⟨hd, tl, rfl⟩
  rw [ngx_palloc_block_eq cfg pool size m hd tl hcons hm, htake, hdrop,
    palloc_block_loop_visited]
  simp only
  refine ⟨?_, ?_, ?_, ?_⟩
  · rw [← List.append_assoc, hlen, List.take_left]
  · rw [← List.append_assoc, hlen, List.drop_left]
    rfl
  · intro hall
    rw [palloc_block_loop_current_same visited tail _ _ hall]
  · intro hv hr h2
    rw [hv, palloc_block_loop_current_moved v1 r v2 tail _ _ (by omega) h2, hcur]

/-- Witness of C19: in `pool_tired` the first region had failed 5 times; after the growth it
has 6 failures, the second region 1, the old tail 0, and `current` is the second region. -/
theorem ngx_palloc_block_counts_failures_witness :
    (pool_tired.d = [] ++ [⟨4096, 4224, 4224, 5⟩, ⟨8192, 8320, 8320, 0⟩]
        ++ [⟨12288, 12416, 12416, 0⟩] ∧ pool_tired.current = 0 ∧ (16384 : Nat) ≠ 0) ∧
    ((ngx_palloc_block lp64 pool_tired 8 16384).2.d.map (fun x => x.failed) = [6, 1, 0, 0]) ∧
    (ngx_palloc_block lp64 pool_tired 8 16384).2.d.take pool_tired.d.length
      = [] ++ [⟨4096, 4224, 4224, 5⟩, ⟨8192, 8320, 8320, 0⟩].map count_failure
        ++ [⟨12288, 12416, 12416, 0⟩] ∧
    (ngx_palloc_block lp64 pool_tired 8 16384).2.current = 0 + 0 + 1 :=
  ⟨by decide, by decide,
   (ngx_palloc_block_counts_failures lp64 pool_tired 8 16384 []
      [⟨4096, 4224, 4224, 5⟩, ⟨8192, 8320, 8320, 0⟩] ⟨12288, 12416, 12416, 0⟩
      [] ⟨4096, 4224, 4224, 5⟩ [⟨8192, 8320, 8320, 0⟩] rfl rfl (by decide)).1,
   (ngx_palloc_block_counts_failures lp64 pool_tired 8 16384 []
      [⟨4096, 4224, 4224, 5⟩, ⟨8192, 8320, 8320, 0⟩] ⟨12288, 12416, 12416, 0⟩
      [] ⟨4096, 4224, 4224, 5⟩ [⟨8192, 8320, 8320, 0⟩] rfl rfl (by decide)).2.2.2
      rfl (by decide) (by decide)⟩

/-- C20. The claim is that `current` always refers to a region of the chain.  On LP64, in
the pool made by `ngx_create_pool(100)` at 8192 whose second block the platform allocator
places at 8080 (disjoint from the first), the calls `ngx_palloc(16)`, `ngx_palloc(16)`,
`ngx_pnalloc(17)` three times, `ngx_palloc(8)`, `ngx_palloc(20)`, `ngx_palloc(8)` return 8272,
8112, 8128, 8145, 8162, 8184, 8192 and 8216: from the sixth on they are served past the limit
8180 of the second region, the seventh at the address of the pool itself.  A following
`ngx_pmemalign` gets its tracking slot at 8224, inside the header of the pool, which is the
bytes from 8192 to 8272.  The stores `large->alloc = p` and `large->next = pool->large` of
`ngx_pmemalign` then go to bytes of the header: with the `ngx_pool_t` of nginx, where `max`
is at offset 32 and `current` at offset 40, they set `max` to 0 and `current` to the data
pointer 50000, which is no region.  The record of the model keeps the fields of the header
apart from the memory handed out and does not show the overwritten bytes. -/
theorem large_slot_served_inside_pool_header :
    ngx_create_pool lp64 100 8192 = some pool_100_high ∧
    ¬ ranges_overlap 8192 100 8080 100 ∧
    run_calls lp64 pool_100_high
        [⟨16, true, 0, 0⟩, ⟨16, true, 0, 8080⟩, ⟨17, false, 0, 0⟩, ⟨17, false, 0, 0⟩,
         ⟨17, false, 0, 0⟩, ⟨8, true, 0, 0⟩, ⟨20, true, 0, 0⟩, ⟨8, true, 0, 0⟩]
      = ([8272, 8112, 8128, 8145, 8162, 8184, 8192, 8216], pool_100_high_overrun) ∧
    (ngx_pmemalign lp64 pool_100_high_overrun 5000 64 50000 0).1 = 50000 ∧
    (ngx_pmemalign lp64 pool_100_high_overrun 5000 64 50000 0).2.1.large
      = [{ addr := 8224, alloc := 50000 }] ∧
    (8192 ≤ 8224 ∧ 8224 + lp64.sizeof_ngx_pool_large_t ≤ 8192 + lp64.sizeof_ngx_pool_t) ∧
    cursors_in_limits pool_100_high_overrun = false := by
  decide

/-- C11, as the claim states it, fails.  On LP64 take the pool made by `ngx_create_pool(1024)`
at 4096 and register an entry, to which the caller assigns the handler 101: it is at 4176.
`ngx_reset_pool` rewinds the cursor and keeps the cleanup list.  A second registration, with
the handler 102, succeeds, and `ngx_palloc` serves it 4176 again, where the entry of the list
is: the store `c->next = p->cleanup` makes the entry its own successor.  The loop of
`ngx_destroy_pool` then calls the handler 102 in every iteration and never comes to its end,
and the handler 101 of the first registration is not called.  The second registration does
not hand out fresh memory. -/
theorem cleanup_entry_follows_itself_after_reset :
    (ngx_create_pool_mem lp64 1024 4096).map (fun s => (s.pool, s.head))
      = some (pool_mem_1024.pool, pool_mem_1024.head) ∧
    (register lp64 pool_mem_1024
      { size := 0, handler := 101, pc := 0, mc := 0, pd := 0, md := 0 }).1 = 4176 ∧
    (register lp64
      (ngx_reset_pool_mem lp64
        (register lp64 pool_mem_1024
          { size := 0, handler := 101, pc := 0, mc := 0, pd := 0, md := 0 }).2).1
      { size := 0, handler := 102, pc := 0, mc := 0, pd := 0, md := 0 }).1 = 4176 ∧
    add_fresh lp64
      (ngx_reset_pool_mem lp64
        (register lp64 pool_mem_1024
          { size := 0, handler := 101, pc := 0, mc := 0, pd := 0, md := 0 }).2).1
      [4176] { size := 0, handler := 102, pc := 0, mc := 0, pd := 0, md := 0 } = false ∧
    pool_mem_relinked.head = 4176 ∧
    pool_mem_relinked.cell 4176 = { handler := some 102, data := some 0, next := some 4176 } ∧
    (∀ fuel, ngx_destroy_pool_mem fuel pool_mem_relinked
      = some (List.replicate fuel (Event.call 102 0), false)) := by
  have hhead : pool_mem_relinked.head = 4176 := by decide
  have hcell : pool_mem_relinked.cell 4176
      = { handler := some 102, data := some 0, next := some 4176 } := by decide
  refine ⟨by decide, by decide, by decide, by decide, hhead, hcell, ?_⟩
  have hwalk : ∀ fuel, destroy_run_cleanup_mem pool_mem_relinked.cell fuel 4176
      = some (List.replicate fuel (Event.call 102 0), false) := by
    intro fuel
    induction fuel with
    | zero => simp [destroy_run_cleanup_mem]
    | succ n ih =>
      unfold destroy_run_cleanup_mem
      simp [hcell, ih, List.replicate_succ]
  intro fuel
  unfold ngx_destroy_pool_mem
  rw [hhead, hwalk]
  simp

/-- C11, amended.  Take a pool whose cleanup list is the entries `old` in memory, and a
sequence of registrations that all succeed and that hand out fresh memory: the entry each
`ngx_palloc` returns shares no byte with an entry of the list, and no entry shares a byte
with a region header or a large slot of the pool.  A single such `ngx_pool_cleanup_add` puts
its entry, with no handler, in front of the list.  After the sequence, to each entry of which
the caller assigns a handler or none, the list in memory is the new entries, the latest
first, followed by `old`; and `ngx_destroy_pool` comes to its end and calls, in this order,
the handler of each entry that has one, once and with the data of that entry, the entries
without a handler being skipped. -/
theorem ngx_destroy_pool_runs_cleanup_latest_first (cfg : Platform) (s : pool_mem)
    (old : List ngx_pool_cleanup_t) (regs : List cleanup_reg)
    (hsz : 0 < cfg.sizeof_ngx_pool_cleanup_t)
    (hchain : is_chain s.cell s.head old = true)
    (hfresh : regs_fresh cfg s (old.map (fun e => e.addr)) regs = true)
    (hok : ∀ c ∈ (run_regs cfg s regs).1, c ≠ 0) :
    (∀ r : cleanup_reg, add_fresh cfg s (old.map (fun e => e.addr)) r = true →
      (ngx_pool_cleanup_add_mem cfg s r.size r.pc r.mc r.pd r.md).1 ≠ 0 →
      ∃ d,
        (ngx_pool_cleanup_add_mem cfg s r.size r.pc r.mc r.pd r.md).2.1.head
          = (ngx_pool_cleanup_add_mem cfg s r.size r.pc r.mc r.pd r.md).1 ∧
        is_chain (ngx_pool_cleanup_add_mem cfg s r.size r.pc r.mc r.pd r.md).2.1.cell
          (ngx_pool_cleanup_add_mem cfg s r.size r.pc r.mc r.pd r.md).1
          ({ addr := (ngx_pool_cleanup_add_mem cfg s r.size r.pc r.mc r.pd r.md).1,
             handler := 0, data := d } :: old) = true) ∧
    ∃ new : List ngx_pool_cleanup_t,
      new.map (fun e => e.addr) = (run_regs cfg s regs).1 ∧
      new.map (fun e => e.handler) = regs.map (fun r => r.handler) ∧
      is_chain (run_regs cfg s regs).2.cell (run_regs cfg s regs).2.head
        (new.reverse ++ old) = true ∧
      ∀ fuel, new.length + old.length ≤ fuel →
        ngx_destroy_pool_mem fuel (run_regs cfg s regs).2
          = some
              (((new.reverse ++ old).filter (fun c => decide (c.handler ≠ 0))).map
                  (fun c => Event.call c.handler c.data)
                ++ reset_free_large (run_regs cfg s regs).2.pool.large
                ++ (run_regs cfg s regs).2.pool.d.map (fun p => Event.free p.addr),
               true) := by
  constructor
  · intro r hr hne
    obtain ⟨d, hhead, hcell, hkeep, -⟩ := ngx_pool_cleanup_add_mem_chain cfg s old r hsz hr hne
    refine ⟨d, hhead, ?_⟩
    simp only [is_chain, hcell, Bool.and_eq_true, decide_eq_true_eq]
    exact ⟨⟨⟨⟨hne, trivial⟩, trivial⟩, trivial⟩,
      is_chain_congr s.cell _ old s.head hkeep hchain⟩
  · obtain ⟨new, k1, k2, k3⟩ := run_regs_chain cfg s old regs hsz hchain hfresh hok
    refine ⟨new, k1, k2, k3, ?_⟩
    intro fuel hfuel
    unfold ngx_destroy_pool_mem
    rw [destroy_run_cleanup_mem_chain _ (new.reverse ++ old) _ fuel k3 (by simpa using hfuel),
      destroy_run_cleanup_eq_filter]
    simp

/-- Witness of C11: X, Y and Z are registered in the pool made by `ngx_create_pool(1024)`,
with data of 0, 8 and 16 bytes and the handlers 101, 102 and 103; the entries are at 4176,
4200 and 4232, and `ngx_destroy_pool` calls 103, 102, 101, each with the data of its entry.
When Y gets no handler the calls are those of Z and X. -/
theorem ngx_destroy_pool_runs_cleanup_latest_first_witness :
    (run_regs lp64 pool_mem_1024 regs_xyz).1 = [4176, 4200, 4232] ∧
    ngx_destroy_pool_mem 3 (run_regs lp64 pool_mem_1024 regs_xyz).2
      = some ([Event.call 103 4256, Event.call 102 4224, Event.call 101 0, Event.free 4096],
          true) ∧
    ngx_destroy_pool_mem 3 (run_regs lp64 pool_mem_1024
        [⟨0, 101, 0, 0, 0, 0⟩, ⟨8, 0, 0, 0, 0, 0⟩, ⟨16, 103, 0, 0, 0, 0⟩]).2
      = some ([Event.call 103 4256, Event.call 101 0, Event.free 4096], true) ∧
    ∃ new : List ngx_pool_cleanup_t,
      new.map (fun e => e.addr) = (run_regs lp64 pool_mem_1024 regs_xyz).1 ∧
      new.map (fun e => e.handler) = regs_xyz.map (fun r => r.handler) ∧
      is_chain (run_regs lp64 pool_mem_1024 regs_xyz).2.cell
        (run_regs lp64 pool_mem_1024 regs_xyz).2.head (new.reverse ++ []) = true ∧
      ∀ fuel, new.length + ([] : List ngx_pool_cleanup_t).length ≤ fuel →
        ngx_destroy_pool_mem fuel (run_regs lp64 pool_mem_1024 regs_xyz).2
          = some
              (((new.reverse ++ []).filter
                    (fun c : ngx_pool_cleanup_t => decide (c.handler ≠ 0))).map
                  (fun c : ngx_pool_cleanup_t => Event.call c.handler c.data)
                ++ reset_free_large (run_regs lp64 pool_mem_1024 regs_xyz).2.pool.large
                ++ (run_regs lp64 pool_mem_1024 regs_xyz).2.pool.d.map
                  (fun p => Event.free p.addr),
               true) :=
  ⟨by decide, by decide, by decide,
   (ngx_destroy_pool_runs_cleanup_latest_first lp64 pool_mem_1024 [] regs_xyz (by decide)
    (by decide) (by decide) (by decide)).2⟩

/-- C12. Let `c` be the first entry of the cleanup list, in list order, whose handler is
`ngx_pool_cleanup_file` (the address `h_file`) and whose data holds the descriptor `fd`.  Then
`ngx_pool_run_cleanup_file` calls that handler once, with the data of `c`, clears the handler
of `c` and changes nothing else in the pool; the handler calls of a later `ngx_destroy_pool`
are those of the entries before `c` and of the entries after `c`, with none for `c`.  When no
entry matches, no handler is called and the pool is unchanged. -/
theorem ngx_pool_run_cleanup_file_first_match (h_file : Nat) (fd_at : Nat → Int)
    (pool : ngx_pool_t) (fd : Int) (pre : List ngx_pool_cleanup_t) (c : ngx_pool_cleanup_t)
    (post : List ngx_pool_cleanup_t) :
    (pool.cleanup = pre ++ c :: post →
      (∀ x ∈ pre, ¬ (x.handler = h_file ∧ fd_at x.data = fd)) →
      c.handler = h_file → fd_at c.data = fd →
      ngx_pool_run_cleanup_file h_file fd_at pool fd
        = ({ pool with cleanup := pre ++ { c with handler := 0 } :: post },
           [Event.call h_file c.data]) ∧
      handler_calls (ngx_destroy_pool (ngx_pool_run_cleanup_file h_file fd_at pool fd).1)
        = destroy_run_cleanup pre ++ destroy_run_cleanup post) ∧
    ((∀ x ∈ pool.cleanup, ¬ (x.handler = h_file ∧ fd_at x.data = fd)) →
      ngx_pool_run_cleanup_file h_file fd_at pool fd = (pool, [])) := by
  constructor
  · intro hlist hpre hc hfd
    have hrun : ngx_pool_run_cleanup_file h_file fd_at pool fd
        = ({ pool with cleanup := pre ++ { c with handler := 0 } :: post },
           [Event.call h_file c.data]) := by
      unfold ngx_pool_run_cleanup_file
      rw [hlist, run_cleanup_file_loop_some h_file fd_at fd pre c post hpre hc hfd]
    refine ⟨hrun, ?_⟩
    rw [hrun, handler_calls_destroy]
    simp only
    have hc0 : destroy_run_cleanup ({ c with handler := 0 } :: post)
        = destroy_run_cleanup post := by
      simp [destroy_run_cleanup]
    rw [destroy_run_cleanup_append, hc0]
  · intro hnone
    unfold ngx_pool_run_cleanup_file
    rw [run_cleanup_file_loop_none h_file fd_at fd pool.cleanup hnone]

/-- Witness of C12: in `pool_files` the handler 500 stands for `ngx_pool_cleanup_file`; the
entry for descriptor 7 is the third, behind an entry for descriptor 9 and an entry with
another handler whose data holds 7 as well. -/
theorem ngx_pool_run_cleanup_file_first_match_witness :
    ngx_pool_run_cleanup_file 500 fds_of_pool_files pool_files 7
      = ({ pool_files with
            cleanup := [⟨4232, 500, 4256⟩, ⟨4200, 102, 4224⟩]
              ++ { (⟨4176, 500, 4224⟩ : ngx_pool_cleanup_t) with handler := 0 } :: [] },
         [Event.call 500 4224]) ∧
    handler_calls (ngx_destroy_pool
        (ngx_pool_run_cleanup_file 500 fds_of_pool_files pool_files 7).1)
      = [Event.call 500 4256, Event.call 102 4224] ∧
    ngx_pool_run_cleanup_file 500 fds_of_pool_files pool_files 8 = (pool_files, []) :=
  ⟨((ngx_pool_run_cleanup_file_first_match 500 fds_of_pool_files pool_files 7
      [⟨4232, 500, 4256⟩, ⟨4200, 102, 4224⟩] ⟨4176, 500, 4224⟩ []).1
      rfl (by decide) rfl (by decide)).1,
   by decide,
   (ngx_pool_run_cleanup_file_first_match 500 fds_of_pool_files pool_files 8
      [⟨4232, 500, 4256⟩, ⟨4200, 102, 4224⟩] ⟨4176, 500, 4224⟩ []).2 (by decide)⟩

end Ngx
